import Mathlib

/-!
Verification of the Knugget content-saving backend (LinkedIn-post and
website-summary services) against its natural-language specification.

The development shallowly embeds the two Prisma-backed services
(`src/services/linkedin.ts`, `src/services/website.ts`) and the query-string
handling of their controllers.  The database is a list of rows; every service
method is a pure function from the current row list (plus the request
arguments and a wall-clock instant) to the next row list and an
`Except AppErr` outcome, mirroring the `try/catch`/`throw AppError` structure
of the TypeScript code.  JavaScript-specific behaviours that the source relies
on (truthiness of `||` and of conditional spreads, `JSON.stringify`,
`JSON.parse`, `Date.prototype.toISOString`, `parseInt`) are modelled
explicitly as executable Lean functions.
-/

/-! ### JavaScript string truthiness helpers

In the source, `x || d` on a string and conditional spreads `...(x && { .. })`
treat the empty string, `null` and `undefined` as false.  `Option String`
models `string | undefined` (and `string | null` where relevant): `none` is
an absent/undefined value. -/

/-- JS `x || d` for `x : string | undefined`: the empty string and `undefined`
both fall through to the default. -/
def jsStrOr (x : Option String) (d : String) : String :=
  match x with
  | some s => if s = "" then d else s
  | none => d

/-- JS `x || null` for `x : string | undefined`: the empty string and
`undefined` both become `null`. -/
def jsStrOrNull (x : Option String) : Option String :=
  match x with
  | some s => if s = "" then none else some s
  | none => none

/-! ### Decimal numerals

`JSON.stringify` renders the numeric fields of `engagement` in decimal;
`JSON.parse` reads them back.  `natChars` is the digit-string writer (fuelled,
hence structurally recursive and kernel-evaluable) and `parseNatAux` the
digit-string reader. -/

def isDigitChar (c : Char) : Bool := '0' ≤ c && c ≤ '9'

def digitChar (n : Nat) : Char := Char.ofNat ('0'.toNat + n % 10)

def digitVal (c : Char) : Nat := c.toNat - '0'.toNat

/-- Most-significant-first digit writer; `fuel` bounds the number of digits and
is always instantiated with a value `≥ n`, so the fuel never runs out. -/
def natCharsAcc : Nat → Nat → List Char → List Char
  | _, 0, acc => acc
  | 0, _ + 1, acc => acc
  | f + 1, n + 1, acc => natCharsAcc f ((n + 1) / 10) (digitChar ((n + 1) % 10) :: acc)

/-- Decimal rendering of a natural number, most significant digit first. -/
def natChars (n : Nat) : List Char := if n = 0 then ['0'] else natCharsAcc n n []

/-- Reads a maximal run of decimal digits, accumulating the value left to
right; returns the value and the unread remainder. -/
def parseNatAux (v : Nat) : List Char → Nat × List Char
  | c :: cs => if isDigitChar c then parseNatAux (v * 10 + digitVal c) cs else (v, c :: cs)
  | [] => (v, [])

theorem natCharsAcc_fuel (f g : Nat) : ∀ n acc, n ≤ f → n ≤ g →
    natCharsAcc f n acc = natCharsAcc g n acc := by
  induction f generalizing g with
  | zero =>
    intro n acc hf _
    interval_cases n
    cases g <;> rfl
  | succ f ih =>
    intro n acc hf hg
    match n, g with
    | 0, 0 => rfl
    | 0, _ + 1 => rfl
    | n + 1, 0 => omega
    | n + 1, g + 1 =>
      show natCharsAcc f ((n+1)/10) _ = natCharsAcc g ((n+1)/10) _
      exact ih g _ _ (by omega) (by omega)

theorem natCharsAcc_append (f : Nat) : ∀ n acc, n ≤ f →
    natCharsAcc f n acc = natCharsAcc f n [] ++ acc := by
  induction f with
  | zero =>
    intro n acc hf
    interval_cases n
    rfl
  | succ f ih =>
    intro n acc hf
    match n with
    | 0 => rfl
    | n + 1 =>
      show natCharsAcc f ((n+1)/10) (digitChar ((n+1) % 10) :: acc)
        = natCharsAcc f ((n+1)/10) [digitChar ((n+1) % 10)] ++ acc
      rw [ih ((n+1)/10) _ (by omega), ih ((n+1)/10) [_] (by omega),
        List.append_assoc]
      rfl

/-- Unfolding of `natChars` that peels the least significant digit. -/
theorem natChars_split (n : Nat) (h10 : 10 ≤ n) :
    natChars n = natChars (n / 10) ++ [digitChar (n % 10)] := by
  match n, h10 with
  | n + 1, h10 =>
    show natCharsAcc (n+1) (n+1) [] = _
    rw [show natCharsAcc (n+1) (n+1) [] = natCharsAcc n ((n+1)/10) [digitChar ((n+1) % 10)] from rfl,
      natCharsAcc_append n _ _ (by omega)]
    have hpos : (n+1) / 10 ≠ 0 := by omega
    unfold natChars
    rw [if_neg hpos, natCharsAcc_fuel n ((n+1)/10) ((n+1)/10) [] (by omega) (le_refl _)]

theorem natChars_small (n : Nat) (h : n < 10) : natChars n = [digitChar n] := by
  interval_cases n <;> rfl

theorem digitChar_isDigit (n : Nat) : isDigitChar (digitChar n) = true := by
  have h : n % 10 < 10 := Nat.mod_lt _ (by omega)
  unfold digitChar
  interval_cases h : n % 10 <;> decide

theorem digitVal_digitChar (n : Nat) : digitVal (digitChar n) = n % 10 := by
  have h : n % 10 < 10 := Nat.mod_lt _ (by omega)
  unfold digitChar digitVal
  interval_cases h : n % 10 <;> decide

theorem natChars_all_digits (n : Nat) : ∀ c ∈ natChars n, isDigitChar c = true := by
  induction n using Nat.strong_induction_on with
  | _ n ih =>
    by_cases h10 : 10 ≤ n
    · rw [natChars_split n h10]
      intro c hc
      rcases List.mem_append.mp hc with h | h
      · exact ih (n / 10) (by omega) c h
      · simp only [List.mem_singleton] at h
        subst h; exact digitChar_isDigit _
    · rw [natChars_small n (by omega)]
      intro c hc
      simp only [List.mem_singleton] at hc
      subst hc; exact digitChar_isDigit _

theorem natChars_ne_nil (n : Nat) : natChars n ≠ [] := by
  by_cases h10 : 10 ≤ n
  · rw [natChars_split n h10]; simp
  · rw [natChars_small n (by omega)]; simp

theorem parseNatAux_cons (v : Nat) (c : Char) (cs : List Char) :
    parseNatAux v (c :: cs)
      = if isDigitChar c then parseNatAux (v * 10 + digitVal c) cs else (v, c :: cs) := rfl

/-- Reading the digits of `n` after an already-accumulated value `v` yields
`v * 10 ^ (number of digits) + n`, leaving the remainder untouched. -/
theorem parseNatAux_natChars (n : Nat) : ∀ v rest,
    parseNatAux v (natChars n ++ rest)
      = parseNatAux (v * 10 ^ (natChars n).length + n) rest := by
  induction n using Nat.strong_induction_on with
  | _ n ih =>
    intro v rest
    by_cases h10 : 10 ≤ n
    · rw [natChars_split n h10, List.append_assoc,
        ih (n / 10) (by omega) v ([digitChar (n % 10)] ++ rest)]
      show parseNatAux _ (digitChar (n % 10) :: rest) = _
      rw [parseNatAux_cons, if_pos (digitChar_isDigit _), digitVal_digitChar]
      congr 1
      rw [show n % 10 % 10 = n % 10 by omega, List.length_append,
        List.length_singleton, Nat.pow_succ]
      calc (v * 10 ^ (natChars (n / 10)).length + n / 10) * 10 + n % 10
          = v * (10 ^ (natChars (n / 10)).length * 10) + (n / 10 * 10 + n % 10) := by ring
        _ = v * (10 ^ (natChars (n / 10)).length * 10) + n := by
              rw [show n / 10 * 10 + n % 10 = n by omega]
    · rw [natChars_small n (by omega)]
      show parseNatAux v (digitChar n :: rest) = _
      rw [parseNatAux_cons, if_pos (digitChar_isDigit _), digitVal_digitChar,
        Nat.mod_eq_of_lt (by omega)]
      norm_num

/-- Reading a rendered numeral that is followed by a non-digit recovers
exactly the numeral's value. -/
theorem parseNatAux_natChars_stop (n : Nat) (rest : List Char)
    (hrest : ∀ c, rest.head? = some c → isDigitChar c = false) :
    parseNatAux 0 (natChars n ++ rest) = (n, rest) := by
  rw [parseNatAux_natChars n 0 rest]
  simp only [Nat.zero_mul, Nat.zero_add]
  match rest with
  | [] => rfl
  | c :: cs =>
    rw [parseNatAux_cons, if_neg (by simp [hrest c rfl])]

/-! ### JSON string escaping

Model of the string codec inside `JSON.stringify` / `JSON.parse` as used on
the `engagement` and `metadata` columns: `escChar` renders one character
(quote and backslash escaped, control characters as named escapes or
`\u00XX`), `parseJStrAux` reads an escaped string up to its closing quote. -/

def hexDigitChar (n : Nat) : Char :=
  Char.ofNat (if n < 10 then 48 + n else 87 + n % 16)

/-- Value of one hexadecimal digit character, by code point. -/
def hexCharVal (c : Char) : Option Nat :=
  let n := c.toNat
  if 48 ≤ n && n ≤ 57 then some (n - 48)
  else if 97 ≤ n && n ≤ 102 then some (n - 87)
  else if 65 ≤ n && n ≤ 70 then some (n - 55)
  else none

def escChar (c : Char) : List Char :=
  if c = '"' then ['\\', '"']
  else if c = '\\' then ['\\', '\\']
  else if c = '\t' then ['\\', 't']
  else if c = '\n' then ['\\', 'n']
  else if c = '\r' then ['\\', 'r']
  else if c.toNat = 8 then ['\\', 'b']
  else if c.toNat = 12 then ['\\', 'f']
  else if c.toNat < 32 then
    ['\\', 'u', '0', '0', hexDigitChar (c.toNat / 16), hexDigitChar (c.toNat % 16)]
  else [c]

def escChars (cs : List Char) : List Char := cs.flatMap escChar

/-- Rendered JSON string: opening quote, escaped content, closing quote. -/
def renderJStr (s : String) : List Char := '"' :: escChars s.data ++ ['"']

def unescChar (c : Char) : Option Char :=
  if c = '"' then some '"'
  else if c = '\\' then some '\\'
  else if c = '/' then some '/'
  else if c = 't' then some '\t'
  else if c = 'n' then some '\n'
  else if c = 'r' then some '\r'
  else if c = 'b' then some (Char.ofNat 8)
  else if c = 'f' then some (Char.ofNat 12)
  else none

/-- Value of a four-digit hex escape body, refused when it does not name a
scalar value. -/
def hexQuad (h1 h2 h3 h4 : Char) : Option Nat :=
  match hexCharVal h1, hexCharVal h2, hexCharVal h3, hexCharVal h4 with
  | some x1, some x2, some x3, some x4 =>
    let v := x1 * 4096 + x2 * 256 + x3 * 16 + x4
    if Nat.isValidChar v then some v else none
  | _, _, _, _ => none

/-- Reads escaped string content up to the closing quote, accumulating the
decoded characters in reverse. -/
def parseJStrAux (acc : List Char) : List Char → Option (List Char × List Char)
  | [] => none
  | c :: rest =>
    if c = '"' then some (acc.reverse, rest)
    else if c = '\\' then
      match rest with
      | 'u' :: a :: b :: c2 :: d :: rest2 =>
        match hexQuad a b c2 d with
        | some n => parseJStrAux (Char.ofNat n :: acc) rest2
        | none => none
      | e :: rest2 =>
        match unescChar e with
        | some ch => parseJStrAux (ch :: acc) rest2
        | none => none
      | [] => none
    else parseJStrAux (c :: acc) rest

/-- Reads a full JSON string literal (expects the opening quote). -/
def parseJStr : List Char → Option (String × List Char)
  | '"' :: rest => (parseJStrAux [] rest).map (fun p => (String.mk p.1, p.2))
  | _ => none

theorem hexCharVal_hexDigitChar : ∀ k, k < 16 → hexCharVal (hexDigitChar k) = some k := by
  decide

theorem parseJStrAux_cons (acc : List Char) (c : Char) (rest : List Char) :
    parseJStrAux acc (c :: rest)
      = if c = '"' then some (acc.reverse, rest)
        else if c = '\\' then
          match rest with
          | 'u' :: a :: b :: c2 :: d :: rest2 =>
            match hexQuad a b c2 d with
            | some n => parseJStrAux (Char.ofNat n :: acc) rest2
            | none => none
          | e :: rest2 =>
            match unescChar e with
            | some ch => parseJStrAux (ch :: acc) rest2
            | none => none
          | [] => none
        else parseJStrAux (c :: acc) rest := by rw [parseJStrAux.eq_def]

theorem parseJStrAux_escChar (c : Char) (acc rest : List Char) :
    parseJStrAux acc (escChar c ++ rest) = parseJStrAux (c :: acc) rest := by
  unfold escChar
  by_cases h1 : c = '"'
  · subst h1; rfl
  by_cases h2 : c = '\\'
  · subst h2; rw [if_neg h1, if_pos rfl]; rfl
  by_cases h3 : c = '\t'
  · subst h3; rw [if_neg h1, if_neg h2, if_pos rfl]; rfl
  by_cases h4 : c = '\n'
  · subst h4; rw [if_neg h1, if_neg h2, if_neg h3, if_pos rfl]; rfl
  by_cases h5 : c = '\r'
  · subst h5; rw [if_neg h1, if_neg h2, if_neg h3, if_neg h4, if_pos rfl]; rfl
  by_cases h6 : c.toNat = 8
  · rw [if_neg h1, if_neg h2, if_neg h3, if_neg h4, if_neg h5, if_pos h6]
    show parseJStrAux (Char.ofNat 8 :: acc) rest = _
    have h : Char.ofNat 8 = c := by rw [← h6, Char.ofNat_toNat]
    rw [h]
  by_cases h7 : c.toNat = 12
  · rw [if_neg h1, if_neg h2, if_neg h3, if_neg h4, if_neg h5, if_neg h6, if_pos h7]
    show parseJStrAux (Char.ofNat 12 :: acc) rest = _
    have h : Char.ofNat 12 = c := by rw [← h7, Char.ofNat_toNat]
    rw [h]
  by_cases h8 : c.toNat < 32
  · rw [if_neg h1, if_neg h2, if_neg h3, if_neg h4, if_neg h5, if_neg h6, if_neg h7,
      if_pos h8]
    show parseJStrAux acc ('\\' :: 'u' :: '0' :: '0' :: _ :: _ :: rest) = _
    rw [parseJStrAux_cons]
    rw [if_neg (by decide), if_pos rfl]
    have hq : hexQuad '0' '0' (hexDigitChar (c.toNat / 16)) (hexDigitChar (c.toNat % 16))
        = some c.toNat := by
      unfold hexQuad
      rw [show hexCharVal '0' = some 0 from rfl,
        hexCharVal_hexDigitChar _ (by omega), hexCharVal_hexDigitChar _ (by omega)]
      dsimp only
      rw [show 0 * 4096 + 0 * 256 + c.toNat / 16 * 16 + c.toNat % 16 = c.toNat by omega]
      rw [if_pos (show Nat.isValidChar c.toNat from Or.inl (by omega))]
    show (match hexQuad '0' '0' (hexDigitChar (c.toNat / 16)) (hexDigitChar (c.toNat % 16)) with
      | some n => parseJStrAux (Char.ofNat n :: acc) rest
      | none => none) = _
    rw [hq]
    show parseJStrAux (Char.ofNat c.toNat :: acc) rest = _
    rw [Char.ofNat_toNat]
  · rw [if_neg h1, if_neg h2, if_neg h3, if_neg h4, if_neg h5, if_neg h6, if_neg h7,
      if_neg h8]
    show parseJStrAux acc (c :: rest) = _
    rw [parseJStrAux_cons, if_neg h1, if_neg h2]

theorem parseJStrAux_escChars (s : List Char) : ∀ acc rest,
    parseJStrAux acc (escChars s ++ '"' :: rest)
      = some (acc.reverse ++ s, rest) := by
  induction s with
  | nil =>
    intro acc rest
    show parseJStrAux acc ('"' :: rest) = _
    rw [parseJStrAux_cons, if_pos rfl, List.append_nil]
  | cons c cs ih =>
    intro acc rest
    show parseJStrAux acc ((escChar c ++ escChars cs) ++ '"' :: rest) = _
    rw [List.append_assoc, parseJStrAux_escChar, ih]
    simp

/-- Round trip for JSON string literals: parsing a rendered string recovers it
exactly, leaving the remainder untouched. -/
theorem parseJStr_renderJStr (s : String) (rest : List Char) :
    parseJStr (renderJStr s ++ rest) = some (s, rest) := by
  show parseJStr ('"' :: (escChars s.data ++ ['"']) ++ rest) = _
  show (parseJStrAux [] ((escChars s.data ++ ['"']) ++ rest)).map _ = _
  rw [List.append_assoc]
  show (parseJStrAux [] (escChars s.data ++ '"' :: rest)).map _ = _
  rw [parseJStrAux_escChars]
  simp

/-! ### Digit-run reading -/

/-- Value accumulated by reading a digit run left to right after an already
accumulated value `v`. -/
def dval (v : Nat) (ds : List Char) : Nat :=
  ds.foldl (fun a c => a * 10 + digitVal c) v

theorem dval_nil (v : Nat) : dval v [] = v := rfl

theorem dval_cons (v : Nat) (c : Char) (cs : List Char) :
    dval v (c :: cs) = dval (v * 10 + digitVal c) cs := rfl

theorem dval_append (v : Nat) (a b : List Char) :
    dval v (a ++ b) = dval (dval v a) b := by
  unfold dval
  exact List.foldl_append _ _ a b

theorem parseNatAux_digits (ds : List Char) : ∀ v rest,
    (∀ c ∈ ds, isDigitChar c = true) →
    parseNatAux v (ds ++ rest) = parseNatAux (dval v ds) rest := by
  induction ds with
  | nil => intro v rest _; rfl
  | cons c cs ih =>
    intro v rest hall
    rw [List.cons_append, parseNatAux_cons, if_pos (hall c (by simp)), dval_cons]
    exact ih _ _ (fun d hd => hall d (by simp [hd]))

theorem parseNatAux_halt (v : Nat) (rest : List Char)
    (hrest : ∀ c, rest.head? = some c → isDigitChar c = false) :
    parseNatAux v rest = (v, rest) := by
  match rest with
  | [] => rfl
  | c :: cs => rw [parseNatAux_cons, if_neg (by simp [hrest c rfl])]

theorem dval_natChars (n : Nat) : dval 0 (natChars n) = n := by
  have h : parseNatAux (dval 0 (natChars n)) []
      = parseNatAux (0 * 10 ^ (natChars n).length + n) [] := by
    rw [← parseNatAux_digits (natChars n) 0 [] (natChars_all_digits n)]
    exact parseNatAux_natChars n 0 []
  have h2 := congrArg Prod.fst h
  simpa using h2

theorem dval_zeros (v : Nat) : ∀ z, dval v (List.replicate z '0') = v * 10 ^ z := by
  intro z
  induction z generalizing v with
  | zero => simp [dval_nil]
  | succ z ih =>
    rw [List.replicate_succ, dval_cons, show digitVal '0' = 0 from rfl, ih]
    ring

theorem replicate_zeros_digits (z : Nat) :
    ∀ c ∈ List.replicate z '0', isDigitChar c = true := by
  intro c hc
  rw [List.eq_of_mem_replicate hc]
  rfl

theorem natChars_head_ne_zero (n : Nat) : n ≠ 0 →
    ∀ c cs, natChars n = c :: cs → c ≠ '0' := by
  induction n using Nat.strong_induction_on with
  | _ n ih =>
    intro hn c cs hc
    by_cases h10 : 10 ≤ n
    · rw [natChars_split n h10] at hc
      cases hh : natChars (n / 10) with
      | nil => exact absurd hh (natChars_ne_nil _)
      | cons c2 cs2 =>
        rw [hh, List.cons_append] at hc
        injection hc with h1 _
        subst h1
        exact ih (n / 10) (by omega) (by omega) c2 _ hh
    · rw [natChars_small n (by omega)] at hc
      injection hc with h1 _
      subst h1
      intro h0
      have hdv := digitVal_digitChar n
      rw [h0] at hdv
      rw [show digitVal '0' = 0 from rfl] at hdv
      omega

/-! ### JSON numbers

`JSON.stringify` prints a finite JS number with `Number::toString` (radix
10), which emits the number's shortest decimal form `s * 10^(n-k)` (`s` a
`k`-digit trailing-zero-free mantissa) in positional notation when
`-6 < n ≤ 21` and in exponential notation otherwise.  `JSON.parse` reads the
full JSON number grammar (integer part, optional fraction, optional
exponent).  A number value is represented by the canonical triple
`(neg, m, p)` denoting `(-1)^neg * m * 10^p` with `m` trailing-zero-free;
every finite double corresponds to exactly one such triple. -/

/-- Heads after which a rendered number token must stop: a digit, `'.'` or an
exponent marker would be consumed into the token. -/
def numStop (cs : List Char) : Bool :=
  match cs with
  | [] => true
  | c :: _ => !(isDigitChar c || c = '.' || c = 'e' || c = 'E')

/-- Exponent suffix as `Number::toString` writes it: explicit sign, then the
magnitude in decimal. -/
def expChars (e : Int) : List Char :=
  (if e < 0 then '-' else '+') :: natChars e.natAbs

/-- `Number::toString` on the digit string `ds` with decimal-point position
`n`: pure digits (zero-padded), a point inside the digits, a `0.`-prefixed
form, or exponential notation. -/
def renderNumCore (ds : List Char) (n : Int) : List Char :=
  if (ds.length : Int) ≤ n ∧ n ≤ 21 then ds ++ List.replicate (n - ds.length).toNat '0'
  else if 0 < n ∧ n ≤ 21 then ds.take n.toNat ++ '.' :: ds.drop n.toNat
  else if -6 < n ∧ n ≤ 0 then '0' :: '.' :: (List.replicate (-n).toNat '0' ++ ds)
  else if ds.length = 1 then ds ++ 'e' :: expChars (n - 1)
  else ds.take 1 ++ '.' :: (ds.drop 1 ++ 'e' :: expChars (n - 1))

/-- Digit part of `m * 10^p` as `Number::toString` renders it (the sign is
rendered by the caller). -/
def renderNumAbs (m : Nat) (p : Int) : List Char :=
  renderNumCore (natChars m) (p + (natChars m).length)

/-- Moves trailing zeros of the mantissa into the exponent; the fuel is
instantiated with the mantissa, which bounds the number of strippable
zeros. -/
def stripZeros : Nat → Nat → Int → Nat × Int
  | 0, m, p => (m, p)
  | f + 1, m, p => if m % 10 == 0 && m != 0 then stripZeros f (m / 10) (p + 1) else (m, p)

/-- Canonical form of a parsed mantissa/exponent pair. -/
def normNum (m : Nat) (p : Int) : Nat × Int :=
  if m = 0 then (0, 0) else stripZeros m m p

/-- Fraction part of a number token: consumes `.digits` when present. -/
def numFrac (m0 : Nat) (r0 : List Char) : Option ((Nat × Int) × List Char) :=
  if r0.head? = some '.' then
    match r0 with
    | _ :: rf =>
      match rf with
      | d :: _ =>
        if isDigitChar d then
          let q := parseNatAux m0 rf
          some ((q.1, -(((rf.length - q.2.length : Nat)) : Int)), q.2)
        else none
      | [] => none
    | [] => none
  else some ((m0, 0), r0)

/-- Exponent part of a number token: consumes `e[+|-]digits` when present. -/
def numExp (p1 : Int) (r1 : List Char) : Option (Int × List Char) :=
  if r1.head? = some 'e' ∨ r1.head? = some 'E' then
    match r1 with
    | _ :: re =>
      match re with
      | s :: rs =>
        if s = '+' then
          match rs with
          | d :: _ =>
            if isDigitChar d then
              let q := parseNatAux 0 rs
              some (p1 + (q.1 : Int), q.2)
            else none
          | [] => none
        else if s = '-' then
          match rs with
          | d :: _ =>
            if isDigitChar d then
              let q := parseNatAux 0 rs
              some (p1 - (q.1 : Int), q.2)
            else none
          | [] => none
        else if isDigitChar s then
          let q := parseNatAux 0 re
          some (p1 + (q.1 : Int), q.2)
        else none
      | [] => none
    | [] => none
  else some (p1, r1)

/-- Integer part of a number token: `0`, or a digit run led by a nonzero
digit. -/
def numIntPart (c : Char) (r : List Char) : Option (Nat × List Char) :=
  if c = '0' then some (0, r)
  else if isDigitChar c then some (parseNatAux 0 (c :: r))
  else none

/-- One JSON number token (after the optional minus sign): integer part,
optional fraction, optional exponent, normalised to canonical form. -/
def parseNumTok (cs : List Char) : Option ((Nat × Int) × List Char) :=
  match cs with
  | [] => none
  | c :: r => do
    let (m0, r0) ← numIntPart c r
    let (mp, r1) ← numFrac m0 r0
    let (p2, r2) ← numExp mp.2 r1
    let nm := normNum mp.1 p2
    some ((nm.1, nm.2), r2)

theorem numStop_spec (rest : List Char) (h : numStop rest = true) :
    ∀ c, rest.head? = some c →
      isDigitChar c = false ∧ ¬c = '.' ∧ ¬c = 'e' ∧ ¬c = 'E' := by
  intro c hc
  match rest with
  | [] => simp at hc
  | d :: ds =>
    simp only [List.head?_cons, Option.some.injEq] at hc
    subst hc
    unfold numStop at h
    simp only [Bool.not_eq_eq_eq_not, Bool.not_true, Bool.or_eq_false_iff,
      decide_eq_false_iff_not] at h
    exact ⟨h.1.1.1, h.1.1.2, h.1.2, h.2⟩

theorem numStop_not_digit (rest : List Char) (h : numStop rest = true) :
    ∀ c, rest.head? = some c → isDigitChar c = false :=
  fun c hc => (numStop_spec rest h c hc).1

theorem stripZeros_stop (f m : Nat) (p : Int) (hm : m % 10 ≠ 0) :
    stripZeros f m p = (m, p) := by
  cases f with
  | zero => rfl
  | succ f =>
    unfold stripZeros
    rw [if_neg (by simp [hm])]

theorem stripZeros_mul (m : Nat) (hm : m % 10 ≠ 0) :
    ∀ z f, z ≤ f → ∀ p, stripZeros f (m * 10 ^ z) p = (m, p + z) := by
  intro z
  induction z with
  | zero =>
    intro f _ p
    rw [pow_zero, Nat.mul_one, stripZeros_stop f m p hm]
    simp
  | succ z ih =>
    intro f hf p
    match f, hf with
    | f + 1, hf =>
      have h1 : m * 10 ^ (z + 1) % 10 = 0 := by
        rw [pow_succ, ← Nat.mul_assoc]
        exact Nat.mul_mod_left _ 10
      have h2 : m * 10 ^ (z + 1) ≠ 0 :=
        Nat.mul_ne_zero (by omega) (pow_ne_zero _ (by norm_num))
      unfold stripZeros
      rw [if_pos (by simp [h1, h2])]
      rw [show m * 10 ^ (z + 1) / 10 = m * 10 ^ z by
        rw [pow_succ, ← Nat.mul_assoc, Nat.mul_div_cancel _ (by norm_num)]]
      rw [ih f (by omega) (p + 1)]
      congr 1
      push_cast
      omega

theorem normNum_canon (m : Nat) (p : Int) (hm : m % 10 ≠ 0) :
    normNum m p = (m, p) := by
  unfold normNum
  rw [if_neg (by omega), stripZeros_stop m m p hm]

theorem normNum_mul (m : Nat) (z : Nat) (hm : m % 10 ≠ 0) :
    normNum (m * 10 ^ z) 0 = (m, (z : Int)) := by
  have hm0 : m ≠ 0 := by omega
  unfold normNum
  rw [if_neg (Nat.mul_ne_zero hm0 (pow_ne_zero _ (by norm_num)))]
  have hfuel : z ≤ m * 10 ^ z := by
    calc z ≤ 10 ^ z := Nat.le_of_lt (Nat.lt_pow_self (by norm_num) z)
    _ ≤ m * 10 ^ z := Nat.le_mul_of_pos_left _ (by omega)
  rw [stripZeros_mul m hm z _ hfuel 0]
  simp

theorem numFrac_skip (m0 : Nat) (r0 : List Char)
    (h : ¬r0.head? = some '.') : numFrac m0 r0 = some ((m0, 0), r0) := by
  unfold numFrac
  rw [if_neg h]

theorem numFrac_digits (m0 : Nat) (ds rest : List Char) (hne : ds ≠ [])
    (hds : ∀ c ∈ ds, isDigitChar c = true)
    (hrest : ∀ c, rest.head? = some c → isDigitChar c = false) :
    numFrac m0 ('.' :: (ds ++ rest))
      = some ((dval m0 ds, -(ds.length : Int)), rest) := by
  unfold numFrac
  rw [if_pos (by simp)]
  match ds, hne with
  | d :: ds2, _ =>
    rw [List.cons_append]
    show (if isDigitChar d then
        let q := parseNatAux m0 (d :: (ds2 ++ rest))
        some ((q.1, -(((d :: (ds2 ++ rest)).length - q.2.length : Nat) : Int)), q.2)
      else none) = _
    rw [if_pos (hds d (by simp))]
    have hq : parseNatAux m0 (d :: (ds2 ++ rest)) = (dval m0 (d :: ds2), rest) := by
      rw [show d :: (ds2 ++ rest) = (d :: ds2) ++ rest from rfl,
        parseNatAux_digits _ _ _ hds, parseNatAux_halt _ _ hrest]
    rw [hq]
    show some ((dval m0 (d :: ds2),
        -(((d :: (ds2 ++ rest)).length - rest.length : Nat) : Int)), rest) = _
    have hlen : ((d :: (ds2 ++ rest)).length - rest.length : Nat) = (d :: ds2).length := by
      simp
      omega
    rw [hlen]

theorem numExp_skip (p1 : Int) (r1 : List Char)
    (h : ¬r1.head? = some 'e') (h2 : ¬r1.head? = some 'E') :
    numExp p1 r1 = some (p1, r1) := by
  unfold numExp
  rw [if_neg (by rintro (hc | hc) <;> [exact h hc; exact h2 hc])]

theorem numExp_chars (p1 e : Int) (rest : List Char)
    (hrest : ∀ c, rest.head? = some c → isDigitChar c = false) :
    numExp p1 ('e' :: (expChars e ++ rest)) = some (p1 + e, rest) := by
  unfold numExp
  rw [if_pos (Or.inl (by simp))]
  unfold expChars
  by_cases hneg : e < 0
  · rw [if_pos hneg]
    rw [List.cons_append]
    show (if ('-' : Char) = '+' then _ else _) = _
    rw [if_neg (by decide), if_pos rfl]
    cases hnc : natChars e.natAbs with
    | nil => exact absurd hnc (natChars_ne_nil _)
    | cons c cs =>
      rw [List.cons_append]
      have hdig : isDigitChar c = true := by
        have := natChars_all_digits e.natAbs
        rw [hnc] at this
        exact this c (by simp)
      show (if isDigitChar c then
          let q := parseNatAux 0 (c :: (cs ++ rest))
          some (p1 - (q.1 : Int), q.2)
        else none) = _
      rw [if_pos hdig]
      have hq : parseNatAux 0 (c :: (cs ++ rest)) = (e.natAbs, rest) := by
        rw [show c :: (cs ++ rest) = (c :: cs) ++ rest from rfl, ← hnc,
          parseNatAux_natChars_stop _ _ hrest]
      rw [hq]
      show some (p1 - ((e.natAbs : Nat) : Int), rest) = _
      rw [show ((e.natAbs : Nat) : Int) = -e by omega]
      simp
  · rw [if_neg hneg]
    rw [List.cons_append]
    show (if ('+' : Char) = '+' then _ else _) = _
    rw [if_pos rfl]
    cases hnc : natChars e.natAbs with
    | nil => exact absurd hnc (natChars_ne_nil _)
    | cons c cs =>
      rw [List.cons_append]
      have hdig : isDigitChar c = true := by
        have := natChars_all_digits e.natAbs
        rw [hnc] at this
        exact this c (by simp)
      show (if isDigitChar c then
          let q := parseNatAux 0 (c :: (cs ++ rest))
          some (p1 + (q.1 : Int), q.2)
        else none) = _
      rw [if_pos hdig]
      have hq : parseNatAux 0 (c :: (cs ++ rest)) = (e.natAbs, rest) := by
        rw [show c :: (cs ++ rest) = (c :: cs) ++ rest from rfl, ← hnc,
          parseNatAux_natChars_stop _ _ hrest]
      rw [hq]
      show some (p1 + ((e.natAbs : Nat) : Int), rest) = _
      rw [show ((e.natAbs : Nat) : Int) = e by omega]

theorem parseNumTok_run (c : Char) (r : List Char) (m0 : Nat) (r0 : List Char)
    (h0 : numIntPart c r = some (m0, r0))
    (mp : Nat × Int) (r1 : List Char) (h1 : numFrac m0 r0 = some (mp, r1))
    (p2 : Int) (r2 : List Char) (h2 : numExp mp.2 r1 = some (p2, r2)) :
    parseNumTok (c :: r)
      = some (((normNum mp.1 p2).1, (normNum mp.1 p2).2), r2) := by
  show (do
    let (m0, r0) ← numIntPart c r
    let (mp, r1) ← numFrac m0 r0
    let (p2, r2) ← numExp mp.2 r1
    let nm := normNum mp.1 p2
    some ((nm.1, nm.2), r2)) = _
  rw [h0]
  simp only [Option.bind_eq_bind, Option.some_bind]
  rw [h1]
  simp only [Option.some_bind]
  rw [h2]
  simp only [Option.some_bind]

theorem parseNumTok_renderNumAbs (m : Nat) (p : Int) (rest : List Char)
    (hz : m = 0 → p = 0) (hnz : m ≠ 0 → m % 10 ≠ 0)
    (hstop : numStop rest = true) :
    parseNumTok (renderNumAbs m p ++ rest) = some ((m, p), rest) := by
  have hnd := numStop_not_digit rest hstop
  have hdot : ¬rest.head? = some '.' :=
    fun hc => (numStop_spec rest hstop _ hc).2.1 rfl
  have hee : ¬rest.head? = some 'e' :=
    fun hc => (numStop_spec rest hstop _ hc).2.2.1 rfl
  have hEE : ¬rest.head? = some 'E' :=
    fun hc => (numStop_spec rest hstop _ hc).2.2.2 rfl
  by_cases hm0 : m = 0
  · subst hm0
    rw [hz rfl, show renderNumAbs 0 0 = ['0'] from rfl,
      show (['0'] : List Char) ++ rest = '0' :: rest from rfl]
    have h0 : numIntPart '0' rest = some ((0 : Nat), rest) := by
      unfold numIntPart
      rw [if_pos rfl]
    have h1 : numFrac 0 rest = some (((0 : Nat), (0 : Int)), rest) := numFrac_skip _ _ hdot
    have h2 : numExp ((0 : Nat), (0 : Int)).2 rest = some (0, rest) := numExp_skip _ _ hee hEE
    rw [parseNumTok_run '0' rest 0 rest h0 ((0 : Nat), (0 : Int)) rest h1 0 rest h2]
    rfl
  · have hm10 := hnz hm0
    obtain ⟨c0, ds', hds⟩ : ∃ c0 ds', natChars m = c0 :: ds' := by
      cases h : natChars m with
      | nil => exact absurd h (natChars_ne_nil m)
      | cons a b => exact ⟨a, b, rfl⟩
    have hc0d : isDigitChar c0 = true := by
      have hall := natChars_all_digits m
      rw [hds] at hall
      exact hall c0 (by simp)
    have hc00 : c0 ≠ '0' := natChars_head_ne_zero m hm0 c0 ds' hds
    unfold renderNumAbs renderNumCore
    set k := (natChars m).length with hkdef
    have hk1 : 1 ≤ k := by rw [hkdef, hds]; simp
    set n : Int := p + (k : Int) with hndef
    by_cases hA : (k : Int) ≤ n ∧ n ≤ 21
    · rw [if_pos hA]
      set z := (n - (k : Int)).toNat with hzdef
      have hzi : (z : Int) = n - (k : Int) := Int.toNat_of_nonneg (by omega)
      have hdig : ∀ c ∈ natChars m ++ List.replicate z '0', isDigitChar c = true := by
        intro c hc
        rcases List.mem_append.mp hc with h | h
        · exact natChars_all_digits m c h
        · exact replicate_zeros_digits z c h
      rw [show (natChars m ++ List.replicate z '0') ++ rest
          = c0 :: (ds' ++ (List.replicate z '0' ++ rest)) by rw [hds]; simp]
      have h0 : numIntPart c0 (ds' ++ (List.replicate z '0' ++ rest))
          = some ((m * 10 ^ z : Nat), rest) := by
        unfold numIntPart
        rw [if_neg hc00, if_pos hc0d]
        rw [show c0 :: (ds' ++ (List.replicate z '0' ++ rest))
            = (natChars m ++ List.replicate z '0') ++ rest by rw [hds]; simp]
        rw [parseNatAux_digits _ _ _ hdig, parseNatAux_halt _ _ hnd,
          dval_append, dval_natChars, dval_zeros]
      have h1 : numFrac (m * 10 ^ z) rest = some (((m * 10 ^ z : Nat), (0 : Int)), rest) :=
        numFrac_skip _ _ hdot
      have h2 : numExp ((m * 10 ^ z : Nat), (0 : Int)).2 rest = some (0, rest) :=
        numExp_skip _ _ hee hEE
      rw [parseNumTok_run c0 _ _ _ h0 _ _ h1 _ _ h2]
      show some (((normNum (m * 10 ^ z) 0).1, (normNum (m * 10 ^ z) 0).2), rest) = _
      rw [normNum_mul m z hm10]
      show some ((m, (z : Int)), rest) = _
      rw [show ((z : Nat) : Int) = p by omega]
    · by_cases hB : 0 < n ∧ n ≤ 21
      · rw [if_neg hA, if_pos hB]
        obtain ⟨i', hi⟩ : ∃ i', n.toNat = i' + 1 := ⟨n.toNat - 1, by omega⟩
        have hii : ((i' + 1 : Nat) : Int) = n := by omega
        have hik : i' + 1 < k := by omega
        rw [hi]
        have htake : (natChars m).take (i' + 1) = c0 :: ds'.take i' := by
          rw [hds, List.take_succ_cons]
        have htdig : ∀ c ∈ (natChars m).take (i' + 1), isDigitChar c = true :=
          fun c hc => natChars_all_digits m c (List.take_subset _ _ hc)
        have hddig : ∀ c ∈ (natChars m).drop (i' + 1), isDigitChar c = true :=
          fun c hc => natChars_all_digits m c (List.drop_subset _ _ hc)
        have hdne : (natChars m).drop (i' + 1) ≠ [] := by
          intro h
          have := congrArg List.length h
          rw [List.length_drop] at this
          simp at this
          omega
        rw [show ((natChars m).take (i' + 1) ++ '.' :: (natChars m).drop (i' + 1)) ++ rest
            = c0 :: (ds'.take i' ++ ('.' :: ((natChars m).drop (i' + 1) ++ rest))) by
          rw [htake]; simp]
        have h0 : numIntPart c0 (ds'.take i' ++ ('.' :: ((natChars m).drop (i' + 1) ++ rest)))
            = some ((dval 0 ((natChars m).take (i' + 1)) : Nat),
                '.' :: ((natChars m).drop (i' + 1) ++ rest)) := by
          unfold numIntPart
          rw [if_neg hc00, if_pos hc0d]
          rw [show c0 :: (ds'.take i' ++ ('.' :: ((natChars m).drop (i' + 1) ++ rest)))
              = (natChars m).take (i' + 1) ++ ('.' :: ((natChars m).drop (i' + 1) ++ rest)) by
            rw [htake]; simp]
          rw [parseNatAux_digits _ _ _ htdig, parseNatAux_halt]
          intro c hc
          simp only [List.head?_cons, Option.some.injEq] at hc
          subst hc
          decide
        have h1 : numFrac (dval 0 ((natChars m).take (i' + 1)))
            ('.' :: ((natChars m).drop (i' + 1) ++ rest))
            = some (((m : Nat), -(((natChars m).drop (i' + 1)).length : Int)), rest) := by
          rw [numFrac_digits _ _ _ hdne hddig hnd, ← dval_append, List.take_append_drop,
            dval_natChars]
        have h2 : numExp ((m : Nat), -(((natChars m).drop (i' + 1)).length : Int)).2 rest
            = some (-(((natChars m).drop (i' + 1)).length : Int), rest) :=
          numExp_skip _ _ hee hEE
        rw [parseNumTok_run c0 _ _ _ h0 _ _ h1 _ _ h2]
        show some (((normNum m (-(((natChars m).drop (i' + 1)).length : Int))).1,
            (normNum m (-(((natChars m).drop (i' + 1)).length : Int))).2), rest) = _
        rw [normNum_canon m _ hm10]
        show some ((m, -(((natChars m).drop (i' + 1)).length : Int)), rest) = _
        rw [List.length_drop]
        rw [show -(((k - (i' + 1) : Nat)) : Int) = p by omega]
      · by_cases hC : -6 < n ∧ n ≤ 0
        · rw [if_neg hA, if_neg hB, if_pos hC]
          set z := (-n).toNat with hzdef
          have hzi : (z : Int) = -n := Int.toNat_of_nonneg (by omega)
          have hzdig : ∀ c ∈ List.replicate z '0' ++ natChars m, isDigitChar c = true := by
            intro c hc
            rcases List.mem_append.mp hc with h | h
            · exact replicate_zeros_digits z c h
            · exact natChars_all_digits m c h
          obtain ⟨d0, zr, hzr⟩ : ∃ d0 zr, List.replicate z '0' ++ natChars m = d0 :: zr := by
            cases h : List.replicate z '0' ++ natChars m with
            | nil =>
              rcases List.append_eq_nil.mp h with ⟨_, h2⟩
              exact absurd h2 (natChars_ne_nil m)
            | cons a b => exact ⟨a, b, rfl⟩
          rw [show ('0' :: '.' :: (List.replicate z '0' ++ natChars m)) ++ rest
              = '0' :: ('.' :: ((List.replicate z '0' ++ natChars m) ++ rest)) by simp]
          have h0 : numIntPart '0' ('.' :: ((List.replicate z '0' ++ natChars m) ++ rest))
              = some ((0 : Nat), '.' :: ((List.replicate z '0' ++ natChars m) ++ rest)) := by
            unfold numIntPart
            rw [if_pos rfl]
          have h1 : numFrac 0 ('.' :: ((List.replicate z '0' ++ natChars m) ++ rest))
              = some (((m : Nat), -(((List.replicate z '0' ++ natChars m)).length : Int)),
                  rest) := by
            rw [numFrac_digits _ _ _ (by rw [hzr]; simp) hzdig hnd, dval_append, dval_zeros,
              Nat.zero_mul, dval_natChars]
          have h2 : numExp ((m : Nat),
              -(((List.replicate z '0' ++ natChars m)).length : Int)).2 rest
              = some (-(((List.replicate z '0' ++ natChars m)).length : Int), rest) :=
            numExp_skip _ _ hee hEE
          rw [parseNumTok_run '0' _ _ _ h0 _ _ h1 _ _ h2]
          show some (((normNum m
              (-(((List.replicate z '0' ++ natChars m)).length : Int))).1,
              (normNum m (-(((List.replicate z '0' ++ natChars m)).length : Int))).2),
              rest) = _
          rw [normNum_canon m _ hm10]
          show some ((m, -(((List.replicate z '0' ++ natChars m)).length : Int)), rest) = _
          rw [List.length_append, List.length_replicate]
          rw [show -(((z + k : Nat)) : Int) = p by omega]
        · by_cases hk : k = 1
          · rw [if_neg hA, if_neg hB, if_neg hC, if_pos hk]
            have hds0 : ds' = [] := by
              have := congrArg List.length hds
              rw [← hkdef, hk] at this
              simp at this
              exact this
            rw [show (natChars m ++ 'e' :: expChars (n - 1)) ++ rest
                = c0 :: ('e' :: (expChars (n - 1) ++ rest)) by
              rw [hds, hds0]; simp]
            have h0 : numIntPart c0 ('e' :: (expChars (n - 1) ++ rest))
                = some ((m : Nat), 'e' :: (expChars (n - 1) ++ rest)) := by
              unfold numIntPart
              rw [if_neg hc00, if_pos hc0d]
              rw [show c0 :: ('e' :: (expChars (n - 1) ++ rest))
                  = natChars m ++ ('e' :: (expChars (n - 1) ++ rest)) by
                rw [hds, hds0]; simp]
              rw [parseNatAux_digits _ _ _ (natChars_all_digits m), parseNatAux_halt,
                dval_natChars]
              intro c hc
              simp only [List.head?_cons, Option.some.injEq] at hc
              subst hc
              decide
            have h1 : numFrac m ('e' :: (expChars (n - 1) ++ rest))
                = some (((m : Nat), (0 : Int)), 'e' :: (expChars (n - 1) ++ rest)) := by
              apply numFrac_skip
              intro hc
              simp only [List.head?_cons, Option.some.injEq] at hc
              exact absurd hc (by decide)
            have h2 : numExp ((m : Nat), (0 : Int)).2 ('e' :: (expChars (n - 1) ++ rest))
                = some (0 + (n - 1), rest) := numExp_chars 0 (n - 1) rest hnd
            rw [parseNumTok_run c0 _ _ _ h0 _ _ h1 _ _ h2]
            show some (((normNum m (0 + (n - 1))).1, (normNum m (0 + (n - 1))).2), rest) = _
            rw [normNum_canon m _ hm10]
            show some ((m, 0 + (n - 1)), rest) = _
            rw [show (0 : Int) + (n - 1) = p by omega]
          · rw [if_neg hA, if_neg hB, if_neg hC, if_neg hk]
            have hk2 : 2 ≤ k := by omega
            have htake1 : (natChars m).take 1 = [c0] := by
              rw [hds, List.take_succ_cons, List.take_zero]
            have hdrop1 : (natChars m).drop 1 = ds' := by
              rw [hds, List.drop_succ_cons, List.drop_zero]
            have hdne : ds' ≠ [] := by
              intro h
              have := congrArg List.length hds
              rw [← hkdef, h] at this
              simp at this
              omega
            have hddig : ∀ c ∈ ds', isDigitChar c = true := by
              intro c hc
              have hall := natChars_all_digits m
              rw [hds] at hall
              exact hall c (by simp [hc])
            rw [show ((natChars m).take 1
                  ++ '.' :: ((natChars m).drop 1 ++ 'e' :: expChars (n - 1))) ++ rest
                = c0 :: ('.' :: (ds' ++ ('e' :: (expChars (n - 1) ++ rest)))) by
              rw [htake1, hdrop1]; simp]
            have h0 : numIntPart c0 ('.' :: (ds' ++ ('e' :: (expChars (n - 1) ++ rest))))
                = some ((dval 0 [c0] : Nat),
                    '.' :: (ds' ++ ('e' :: (expChars (n - 1) ++ rest)))) := by
              unfold numIntPart
              rw [if_neg hc00, if_pos hc0d]
              rw [show c0 :: ('.' :: (ds' ++ ('e' :: (expChars (n - 1) ++ rest))))
                  = [c0] ++ ('.' :: (ds' ++ ('e' :: (expChars (n - 1) ++ rest)))) from rfl]
              rw [parseNatAux_digits _ _ _ (by intro c hc; simp at hc; subst hc; exact hc0d),
                parseNatAux_halt]
              intro c hc
              simp only [List.head?_cons, Option.some.injEq] at hc
              subst hc
              decide
            have h1 : numFrac (dval 0 [c0])
                ('.' :: (ds' ++ ('e' :: (expChars (n - 1) ++ rest))))
                = some (((m : Nat), -((ds'.length : Nat) : Int)),
                    'e' :: (expChars (n - 1) ++ rest)) := by
              rw [numFrac_digits _ _ _ hdne hddig (by
                intro c hc
                simp only [List.head?_cons, Option.some.injEq] at hc
                subst hc
                decide)]
              rw [← dval_append]
              rw [show [c0] ++ ds' = natChars m by rw [hds]; rfl, dval_natChars]
            have h2 : numExp ((m : Nat), -((ds'.length : Nat) : Int)).2
                ('e' :: (expChars (n - 1) ++ rest))
                = some (-((ds'.length : Nat) : Int) + (n - 1), rest) :=
              numExp_chars _ (n - 1) rest hnd
            rw [parseNumTok_run c0 _ _ _ h0 _ _ h1 _ _ h2]
            show some (((normNum m (-((ds'.length : Nat) : Int) + (n - 1))).1,
                (normNum m (-((ds'.length : Nat) : Int) + (n - 1))).2), rest) = _
            rw [normNum_canon m _ hm10]
            show some ((m, -((ds'.length : Nat) : Int) + (n - 1)), rest) = _
            have hlen : ds'.length = k - 1 := by
              have := congrArg List.length hds
              rw [← hkdef] at this
              simp at this
              omega
            rw [hlen, show -(((k - 1 : Nat)) : Int) + (n - 1) = p by omega]

/-! ### JSON values

The `engagement` and `metadata` payloads are arbitrary JSON values: the DTO
types them as `{ likes?, comments?, shares?: number }` and
`{ timestamp?: string; source?: string; [key: string]: any }` — the latter's
index signature admits extra keys holding values of any JSON type, nesting
included.  `Jval` is the full JSON value grammar; array elements and object
members are chained through the `Cons`/`Nil` constructors (`JvalOk` checks
that every tail is a chain of the matching kind, and that numbers are in
canonical form).  `NaN`/`Infinity` are not JSON values (`JSON.stringify`
writes `null` for them) and have no representation. -/

inductive Jval where
  | jnull
  | jbool (b : Bool)
  | jnum (neg : Bool) (m : Nat) (p : Int)
  | jstr (s : String)
  | jarrNil
  | jarrCons (hd : Jval) (tl : Jval)
  | jobjNil
  | jobjCons (key : String) (jv : Jval) (tl : Jval)
deriving DecidableEq

def isArrChain : Jval → Bool
  | .jarrNil | .jarrCons _ _ => true
  | _ => false

def isObjChain : Jval → Bool
  | .jobjNil | .jobjCons _ _ _ => true
  | _ => false

/-- Well-formed JSON value: chain tails have the matching kind, and every
number is canonical — a trailing-zero-free mantissa, with zero written as
`+0e0`.  Every JS runtime value maps to exactly one such representation. -/
def JvalOk : Jval → Bool
  | .jnull | .jbool _ | .jstr _ | .jarrNil | .jobjNil => true
  | .jnum neg m p => if m = 0 then !neg && p == 0 else m % 10 != 0
  | .jarrCons h t => JvalOk h && isArrChain t && JvalOk t
  | .jobjCons _ v t => JvalOk v && isObjChain t && JvalOk t

/-- JS truthiness of a JSON value: `null`, `false`, `0` and `""` are falsy;
every object and array (empty ones included) is truthy. -/
def jsTruthy : Jval → Bool
  | .jnull => false
  | .jbool b => b
  | .jnum _ m _ => m != 0
  | .jstr s => !(s == "")
  | _ => true

/-- `JSON.stringify` (no spacing argument).  The first argument selects the
position: `false` renders a value, `true` renders the tail of an array or
object chain (separator or closing bracket included). -/
def renderJv : Bool → Jval → List Char
  | _, .jnull => ['n', 'u', 'l', 'l']
  | _, .jbool true => ['t', 'r', 'u', 'e']
  | _, .jbool false => ['f', 'a', 'l', 's', 'e']
  | _, .jnum neg m p => (if neg then ['-'] else []) ++ renderNumAbs m p
  | _, .jstr s => renderJStr s
  | false, .jarrNil => ['[', ']']
  | true, .jarrNil => [']']
  | false, .jarrCons h t => '[' :: (renderJv false h ++ renderJv true t)
  | true, .jarrCons h t => ',' :: (renderJv false h ++ renderJv true t)
  | false, .jobjNil => ['{', '}']
  | true, .jobjNil => ['}']
  | false, .jobjCons k v t => '{' :: (renderJStr k ++ ':' :: (renderJv false v ++ renderJv true t))
  | true, .jobjCons k v t => ',' :: (renderJStr k ++ ':' :: (renderJv false v ++ renderJv true t))

/-- Parser position: a value, the elements of an array after `[`, or the
members of an object after `{`. -/
inductive JMode where
  | value
  | items
  | keyed

/-- `JSON.parse` on the whitespace-free texts `JSON.stringify` emits; the
fuel bounds the nesting depth and is instantiated with the input length,
which always suffices. -/
def parseJv : Nat → JMode → List Char → Option (Jval × List Char)
  | 0, _, _ => none
  | _ + 1, .value, [] => none
  | fu + 1, .value, c :: r =>
    if c = 'n' then
      match r with
      | 'u' :: 'l' :: 'l' :: r2 => some (.jnull, r2)
      | _ => none
    else if c = 't' then
      match r with
      | 'r' :: 'u' :: 'e' :: r2 => some (.jbool true, r2)
      | _ => none
    else if c = 'f' then
      match r with
      | 'a' :: 'l' :: 's' :: 'e' :: r2 => some (.jbool false, r2)
      | _ => none
    else if c = '"' then (parseJStr (c :: r)).map (fun q => (.jstr q.1, q.2))
    else if c = '[' then
      if r.head? = some ']' then some (.jarrNil, r.tail)
      else parseJv fu .items r
    else if c = '{' then
      if r.head? = some '}' then some (.jobjNil, r.tail)
      else parseJv fu .keyed r
    else if c = '-' then
      (parseNumTok r).map (fun q => (.jnum true q.1.1 q.1.2, q.2))
    else if isDigitChar c then
      (parseNumTok (c :: r)).map (fun q => (.jnum false q.1.1 q.1.2, q.2))
    else none
  | fu + 1, .items, cs => do
    let (v, r1) ← parseJv fu .value cs
    match r1 with
    | c1 :: r2 =>
      if c1 = ',' then do
        let (t, r3) ← parseJv fu .items r2
        some (.jarrCons v t, r3)
      else if c1 = ']' then some (.jarrCons v .jarrNil, r2)
      else none
    | [] => none
  | fu + 1, .keyed, cs => do
    let (k, r1) ← parseJStr cs
    match r1 with
    | c1 :: r2 =>
      if c1 = ':' then do
        let (v, r3) ← parseJv fu .value r2
        match r3 with
        | c2 :: r4 =>
          if c2 = ',' then do
            let (t, r5) ← parseJv fu .keyed r4
            some (.jobjCons k v t, r5)
          else if c2 = '}' then some (.jobjCons k v .jobjNil, r4)
          else none
        | [] => none
      else none
    | [] => none

/-- Fuel bound: one unit per chain link suffices for `parseJv`. -/
def jfuel : Jval → Nat
  | .jarrCons h t => jfuel h + jfuel t + 1
  | .jobjCons _ v t => jfuel v + jfuel t + 1
  | _ => 1

theorem jfuel_pos (v : Jval) : 1 ≤ jfuel v := by
  cases v <;> simp [jfuel]

theorem parseJv_value_cons (fu : Nat) (c : Char) (r : List Char) :
    parseJv (fu + 1) .value (c :: r)
      = (if c = 'n' then
          match r with
          | 'u' :: 'l' :: 'l' :: r2 => some (.jnull, r2)
          | _ => none
        else if c = 't' then
          match r with
          | 'r' :: 'u' :: 'e' :: r2 => some (.jbool true, r2)
          | _ => none
        else if c = 'f' then
          match r with
          | 'a' :: 'l' :: 's' :: 'e' :: r2 => some (.jbool false, r2)
          | _ => none
        else if c = '"' then (parseJStr (c :: r)).map (fun q => (.jstr q.1, q.2))
        else if c = '[' then
          if r.head? = some ']' then some (.jarrNil, r.tail)
          else parseJv fu .items r
        else if c = '{' then
          if r.head? = some '}' then some (.jobjNil, r.tail)
          else parseJv fu .keyed r
        else if c = '-' then
          (parseNumTok r).map (fun q => (.jnum true q.1.1 q.1.2, q.2))
        else if isDigitChar c then
          (parseNumTok (c :: r)).map (fun q => (.jnum false q.1.1 q.1.2, q.2))
        else none) := rfl

theorem parseJv_items_succ (fu : Nat) (cs : List Char) :
    parseJv (fu + 1) .items cs
      = (do
          let (v, r1) ← parseJv fu .value cs
          match r1 with
          | c1 :: r2 =>
            if c1 = ',' then do
              let (t, r3) ← parseJv fu .items r2
              some (.jarrCons v t, r3)
            else if c1 = ']' then some (.jarrCons v .jarrNil, r2)
            else none
          | [] => none) := rfl

theorem parseJv_keyed_succ (fu : Nat) (cs : List Char) :
    parseJv (fu + 1) .keyed cs
      = (do
          let (k, r1) ← parseJStr cs
          match r1 with
          | c1 :: r2 =>
            if c1 = ':' then do
              let (v, r3) ← parseJv fu .value r2
              match r3 with
              | c2 :: r4 =>
                if c2 = ',' then do
                  let (t, r5) ← parseJv fu .keyed r4
                  some (.jobjCons k v t, r5)
                else if c2 = '}' then some (.jobjCons k v .jobjNil, r4)
                else none
              | [] => none
            else none
          | [] => none) := rfl

theorem digit_ne_char (c x : Char) (hd : isDigitChar c = true)
    (hx : isDigitChar x = false) : ¬c = x := by
  intro h
  rw [h] at hd
  rw [hd] at hx
  cases hx

theorem renderNumAbs_head (m : Nat) (p : Int) :
    ∃ c cs, renderNumAbs m p = c :: cs ∧ isDigitChar c = true := by
  obtain ⟨c0, ds', hds⟩ : ∃ c0 ds', natChars m = c0 :: ds' := by
    cases h : natChars m with
    | nil => exact absurd h (natChars_ne_nil m)
    | cons a b => exact ⟨a, b, rfl⟩
  have hc0d : isDigitChar c0 = true := by
    have hall := natChars_all_digits m
    rw [hds] at hall
    exact hall c0 (by simp)
  unfold renderNumAbs renderNumCore
  split
  · exact ⟨c0, _, by rw [hds, List.cons_append], hc0d⟩
  · split
    · next hB =>
      obtain ⟨j, hj⟩ : ∃ j, (p + ((natChars m).length : Int)).toNat = j + 1 :=
        ⟨(p + ((natChars m).length : Int)).toNat - 1, by omega⟩
      rw [hj, hds, List.take_succ_cons, List.cons_append]
      exact ⟨c0, _, rfl, hc0d⟩
    · split
      · exact ⟨'0', _, rfl, by decide⟩
      · split
        · exact ⟨c0, _, by rw [hds, List.cons_append], hc0d⟩
        · rw [hds, List.take_succ_cons, List.take_zero, List.cons_append]
          exact ⟨c0, _, rfl, hc0d⟩

theorem renderJv_false_head_ne (v : Jval) :
    ∃ c cs, renderJv false v = c :: cs ∧ ¬c = ']' := by
  cases v with
  | jnull => exact ⟨'n', _, rfl, by decide⟩
  | jbool b =>
    cases b with
    | false => exact ⟨'f', _, rfl, by decide⟩
    | true => exact ⟨'t', _, rfl, by decide⟩
  | jnum neg m p =>
    cases neg with
    | true => exact ⟨'-', renderNumAbs m p, rfl, by decide⟩
    | false =>
      obtain ⟨c, cs, h, hd⟩ := renderNumAbs_head m p
      refine ⟨c, cs, ?_, digit_ne_char c ']' hd (by decide)⟩
      show ([] : List Char) ++ renderNumAbs m p = c :: cs
      rw [List.nil_append, h]
  | jstr s => exact ⟨'"', _, rfl, by decide⟩
  | jarrNil => exact ⟨'[', _, rfl, by decide⟩
  | jarrCons h t => exact ⟨'[', _, rfl, by decide⟩
  | jobjNil => exact ⟨'{', _, rfl, by decide⟩
  | jobjCons k w t => exact ⟨'{', _, rfl, by decide⟩

theorem numStop_cons (c : Char) (x : List Char)
    (h : (isDigitChar c || c = '.' || c = 'e' || c = 'E') = false) :
    numStop (c :: x) = true := by
  show (!(isDigitChar c || c = '.' || c = 'e' || c = 'E')) = true
  rw [h]
  rfl

theorem numStop_chain_arr (t : Jval) (h : isArrChain t = true) (x : List Char) :
    numStop (renderJv true t ++ x) = true := by
  match t, h with
  | .jarrNil, _ =>
    show numStop (']' :: x) = true
    exact numStop_cons _ _ (by decide)
  | .jarrCons a b, _ =>
    show numStop (',' :: ((renderJv false a ++ renderJv true b) ++ x)) = true
    exact numStop_cons _ _ (by decide)

theorem numStop_chain_obj (t : Jval) (h : isObjChain t = true) (x : List Char) :
    numStop (renderJv true t ++ x) = true := by
  match t, h with
  | .jobjNil, _ =>
    show numStop ('}' :: x) = true
    exact numStop_cons _ _ (by decide)
  | .jobjCons k w b, _ =>
    show numStop (',' :: ((renderJStr k ++ ':' :: (renderJv false w ++ renderJv true b)) ++ x))
      = true
    exact numStop_cons _ _ (by decide)

/-- Round trip of the JSON codec: parsing a rendered well-formed value in
value position recovers it exactly (the two other conjuncts drive the
induction through array-element and object-member position). -/
theorem parseJv_render (v : Jval) : ∀ fu rest,
    (JvalOk v = true → numStop rest = true → jfuel v + 1 ≤ fu →
        parseJv fu .value (renderJv false v ++ rest) = some (v, rest))
    ∧ (∀ h t, v = .jarrCons h t → JvalOk v = true → jfuel v ≤ fu →
        parseJv fu .items (renderJv false h ++ (renderJv true t ++ rest)) = some (v, rest))
    ∧ (∀ k w t, v = .jobjCons k w t → JvalOk v = true → jfuel v ≤ fu →
        parseJv fu .keyed
            (renderJStr k ++ ':' :: (renderJv false w ++ (renderJv true t ++ rest)))
          = some (v, rest)) := by
  induction v with
  | jnull =>
    intro fu rest
    refine ⟨?_, fun _ _ hveq => absurd hveq (by simp), fun _ _ _ hveq => absurd hveq (by simp)⟩
    intro _ _ hfu
    match fu, hfu with
    | fu + 1, _ =>
      show parseJv (fu + 1) .value ('n' :: ('u' :: 'l' :: 'l' :: rest)) = some (.jnull, rest)
      rw [parseJv_value_cons, if_pos rfl]
      rfl
  | jbool b =>
    intro fu rest
    refine ⟨?_, fun _ _ hveq => absurd hveq (by simp), fun _ _ _ hveq => absurd hveq (by simp)⟩
    intro _ _ hfu
    match fu, hfu with
    | fu + 1, _ =>
      cases b with
      | true =>
        show parseJv (fu + 1) .value ('t' :: ('r' :: 'u' :: 'e' :: rest))
          = some (.jbool true, rest)
        rw [parseJv_value_cons, if_neg (by decide), if_pos rfl]
        rfl
      | false =>
        show parseJv (fu + 1) .value ('f' :: ('a' :: 'l' :: 's' :: 'e' :: rest))
          = some (.jbool false, rest)
        rw [parseJv_value_cons, if_neg (by decide), if_neg (by decide), if_pos rfl]
        rfl
  | jnum neg m p =>
    intro fu rest
    refine ⟨?_, fun _ _ hveq => absurd hveq (by simp), fun _ _ _ hveq => absurd hveq (by simp)⟩
    intro hok hstop hfu
    have hc : (if m = 0 then !neg && p == 0 else (m % 10 != 0)) = true := hok
    have hz : m = 0 → p = 0 := by
      intro h
      rw [if_pos h] at hc
      simp at hc
      exact hc.2
    have hneg0 : m = 0 → neg = false := by
      intro h
      rw [if_pos h] at hc
      simp at hc
      exact hc.1
    have hnz : m ≠ 0 → m % 10 ≠ 0 := by
      intro h
      rw [if_neg h] at hc
      simpa using hc
    match fu, hfu with
    | fu + 1, _ =>
      cases neg with
      | true =>
        show parseJv (fu + 1) .value (('-' :: renderNumAbs m p) ++ rest)
          = some (.jnum true m p, rest)
        rw [List.cons_append, parseJv_value_cons,
          if_neg (by decide), if_neg (by decide), if_neg (by decide), if_neg (by decide),
          if_neg (by decide), if_neg (by decide), if_pos rfl,
          parseNumTok_renderNumAbs m p rest hz hnz hstop]
        rfl
      | false =>
        obtain ⟨c2, cs2, hh, hd⟩ := renderNumAbs_head m p
        show parseJv (fu + 1) .value (renderNumAbs m p ++ rest) = some (.jnum false m p, rest)
        rw [hh, List.cons_append, parseJv_value_cons,
          if_neg (digit_ne_char c2 'n' hd (by decide)),
          if_neg (digit_ne_char c2 't' hd (by decide)),
          if_neg (digit_ne_char c2 'f' hd (by decide)),
          if_neg (digit_ne_char c2 '"' hd (by decide)),
          if_neg (digit_ne_char c2 '[' hd (by decide)),
          if_neg (digit_ne_char c2 '{' hd (by decide)),
          if_neg (digit_ne_char c2 '-' hd (by decide)),
          if_pos hd]
        rw [show c2 :: (cs2 ++ rest) = renderNumAbs m p ++ rest by rw [hh, List.cons_append]]
        rw [parseNumTok_renderNumAbs m p rest hz hnz hstop]
        rfl
  | jstr s =>
    intro fu rest
    refine ⟨?_, fun _ _ hveq => absurd hveq (by simp), fun _ _ _ hveq => absurd hveq (by simp)⟩
    intro _ _ hfu
    match fu, hfu with
    | fu + 1, _ =>
      show parseJv (fu + 1) .value (('"' :: (escChars s.data ++ ['"'])) ++ rest)
        = some (.jstr s, rest)
      rw [List.cons_append, parseJv_value_cons,
        if_neg (by decide), if_neg (by decide), if_neg (by decide), if_pos rfl]
      rw [show ('"' :: ((escChars s.data ++ ['"']) ++ rest)) = renderJStr s ++ rest by
        simp [renderJStr]]
      rw [parseJStr_renderJStr]
      rfl
  | jarrNil =>
    intro fu rest
    refine ⟨?_, fun _ _ hveq => absurd hveq (by simp), fun _ _ _ hveq => absurd hveq (by simp)⟩
    intro _ _ hfu
    match fu, hfu with
    | fu + 1, _ =>
      show parseJv (fu + 1) .value ('[' :: (']' :: rest)) = some (.jarrNil, rest)
      rw [parseJv_value_cons, if_neg (by decide), if_neg (by decide), if_neg (by decide),
        if_neg (by decide), if_pos rfl,
        if_pos (show ((']' :: rest : List Char)).head? = some ']' from rfl)]
      rfl
  | jobjNil =>
    intro fu rest
    refine ⟨?_, fun _ _ hveq => absurd hveq (by simp), fun _ _ _ hveq => absurd hveq (by simp)⟩
    intro _ _ hfu
    match fu, hfu with
    | fu + 1, _ =>
      show parseJv (fu + 1) .value ('{' :: ('}' :: rest)) = some (.jobjNil, rest)
      rw [parseJv_value_cons, if_neg (by decide), if_neg (by decide), if_neg (by decide),
        if_neg (by decide), if_neg (by decide), if_pos rfl,
        if_pos (show (('}' :: rest : List Char)).head? = some '}' from rfl)]
      rfl
  | jarrCons h t ih_h ih_t =>
    intro fu rest
    have hitems : ∀ fu2, JvalOk (.jarrCons h t) = true → jfuel (.jarrCons h t) ≤ fu2 →
        parseJv fu2 .items (renderJv false h ++ (renderJv true t ++ rest))
          = some (.jarrCons h t, rest) := by
      intro fu2 hok hfu2
      have hc : (JvalOk h && isArrChain t && JvalOk t) = true := hok
      simp only [Bool.and_eq_true] at hc
      obtain ⟨⟨hokh, hchain⟩, hokt⟩ := hc
      have hfu3 : jfuel h + jfuel t + 1 ≤ fu2 := hfu2
      match fu2, hfu3 with
      | fu2 + 1, hfu3 =>
        rw [parseJv_items_succ]
        have hval := (ih_h fu2 (renderJv true t ++ rest)).1 hokh
          (numStop_chain_arr t hchain rest)
          (by have := jfuel_pos t; omega)
        rw [hval]
        simp only [Option.bind_eq_bind, Option.some_bind]
        cases t with
        | jarrNil =>
          rw [show renderJv true Jval.jarrNil ++ rest = ']' :: rest from rfl]
          show (if (']' : Char) = ',' then (do
              let q ← parseJv fu2 .items rest
              some (Jval.jarrCons h q.1, q.2))
            else if (']' : Char) = ']' then some (Jval.jarrCons h Jval.jarrNil, rest)
            else none) = some (Jval.jarrCons h Jval.jarrNil, rest)
          rw [if_neg (by decide), if_pos rfl]
        | jarrCons h2 t2 =>
          rw [show renderJv true (Jval.jarrCons h2 t2) ++ rest
              = ',' :: ((renderJv false h2 ++ renderJv true t2) ++ rest) from rfl]
          show (if (',' : Char) = ',' then (do
              let q ← parseJv fu2 .items ((renderJv false h2 ++ renderJv true t2) ++ rest)
              some (Jval.jarrCons h q.1, q.2))
            else if (',' : Char) = ']' then
              some (Jval.jarrCons h Jval.jarrNil,
                (renderJv false h2 ++ renderJv true t2) ++ rest)
            else none) = some (Jval.jarrCons h (Jval.jarrCons h2 t2), rest)
          rw [if_pos rfl, List.append_assoc]
          rw [(ih_t fu2 rest).2.1 h2 t2 rfl hokt (by have := jfuel_pos h; omega)]
          rfl
        | jnull => simp [isArrChain] at hchain
        | jbool b => simp [isArrChain] at hchain
        | jnum neg m p => simp [isArrChain] at hchain
        | jstr s => simp [isArrChain] at hchain
        | jobjNil => simp [isArrChain] at hchain
        | jobjCons k2 w2 t2 => simp [isArrChain] at hchain
    refine ⟨?_, ?_, fun _ _ _ hveq => absurd hveq (by simp)⟩
    · intro hok hstop hfu
      match fu, hfu with
      | fu + 1, hfu =>
        show parseJv (fu + 1) .value
            ('[' :: ((renderJv false h ++ renderJv true t) ++ rest))
          = some (.jarrCons h t, rest)
        rw [parseJv_value_cons, if_neg (by decide), if_neg (by decide), if_neg (by decide),
          if_neg (by decide), if_pos rfl]
        obtain ⟨c2, cs2, hh2, hne2⟩ := renderJv_false_head_ne h
        rw [show (renderJv false h ++ renderJv true t) ++ rest
            = c2 :: (cs2 ++ (renderJv true t ++ rest)) by rw [hh2]; simp]
        rw [if_neg (by
          simp only [List.head?_cons, Option.some.injEq]
          exact hne2)]
        rw [show c2 :: (cs2 ++ (renderJv true t ++ rest))
            = renderJv false h ++ (renderJv true t ++ rest) by rw [hh2]; simp]
        exact hitems fu hok (by omega)
    · intro h' t' hveq hok hfu
      injection hveq with e1 e2
      subst e1
      subst e2
      exact hitems fu hok hfu
  | jobjCons k w t ih_w ih_t =>
    intro fu rest
    have hkeyed : ∀ fu2, JvalOk (.jobjCons k w t) = true → jfuel (.jobjCons k w t) ≤ fu2 →
        parseJv fu2 .keyed
            (renderJStr k ++ ':' :: (renderJv false w ++ (renderJv true t ++ rest)))
          = some (.jobjCons k w t, rest) := by
      intro fu2 hok hfu2
      have hc : (JvalOk w && isObjChain t && JvalOk t) = true := hok
      simp only [Bool.and_eq_true] at hc
      obtain ⟨⟨hokw, hchain⟩, hokt⟩ := hc
      have hfu3 : jfuel w + jfuel t + 1 ≤ fu2 := hfu2
      match fu2, hfu3 with
      | fu2 + 1, hfu3 =>
        rw [parseJv_keyed_succ]
        rw [parseJStr_renderJStr k (':' :: (renderJv false w ++ (renderJv true t ++ rest)))]
        simp only [Option.bind_eq_bind, Option.some_bind]
        show (if (':' : Char) = ':' then (do
            let q ← parseJv fu2 .value (renderJv false w ++ (renderJv true t ++ rest))
            match q.2 with
            | c2 :: r4 =>
              if c2 = ',' then do
                let q2 ← parseJv fu2 .keyed r4
                some (Jval.jobjCons k q.1 q2.1, q2.2)
              else if c2 = '}' then some (Jval.jobjCons k q.1 Jval.jobjNil, r4)
              else none
            | [] => none)
          else none) = some (Jval.jobjCons k w t, rest)
        rw [if_pos rfl]
        have hval := (ih_w fu2 (renderJv true t ++ rest)).1 hokw
          (numStop_chain_obj t hchain rest)
          (by have := jfuel_pos t; omega)
        rw [hval]
        simp only [Option.bind_eq_bind, Option.some_bind]
        cases t with
        | jobjNil =>
          rw [show renderJv true Jval.jobjNil ++ rest = '}' :: rest from rfl]
          show (if ('}' : Char) = ',' then (do
              let q2 ← parseJv fu2 .keyed rest
              some (Jval.jobjCons k w q2.1, q2.2))
            else if ('}' : Char) = '}' then some (Jval.jobjCons k w Jval.jobjNil, rest)
            else none) = some (Jval.jobjCons k w Jval.jobjNil, rest)
          rw [if_neg (by decide), if_pos rfl]
        | jobjCons k2 w2 t2 =>
          rw [show renderJv true (Jval.jobjCons k2 w2 t2) ++ rest
              = ',' :: ((renderJStr k2 ++ ':' :: (renderJv false w2 ++ renderJv true t2))
                  ++ rest) from rfl]
          show (if (',' : Char) = ',' then (do
              let q2 ← parseJv fu2 .keyed
                ((renderJStr k2 ++ ':' :: (renderJv false w2 ++ renderJv true t2)) ++ rest)
              some (Jval.jobjCons k w q2.1, q2.2))
            else if (',' : Char) = '}' then
              some (Jval.jobjCons k w Jval.jobjNil,
                (renderJStr k2 ++ ':' :: (renderJv false w2 ++ renderJv true t2)) ++ rest)
            else none) = some (Jval.jobjCons k w (Jval.jobjCons k2 w2 t2), rest)
          rw [if_pos rfl]
          rw [show (renderJStr k2 ++ ':' :: (renderJv false w2 ++ renderJv true t2)) ++ rest
              = renderJStr k2 ++ ':' :: (renderJv false w2 ++ (renderJv true t2 ++ rest)) by
            simp]
          rw [(ih_t fu2 rest).2.2 k2 w2 t2 rfl hokt (by have := jfuel_pos w; omega)]
          rfl
        | jnull => simp [isObjChain] at hchain
        | jbool b => simp [isObjChain] at hchain
        | jnum neg m p => simp [isObjChain] at hchain
        | jstr s => simp [isObjChain] at hchain
        | jarrNil => simp [isObjChain] at hchain
        | jarrCons h2 t2 => simp [isObjChain] at hchain
    refine ⟨?_, fun _ _ hveq => absurd hveq (by simp), ?_⟩
    · intro hok hstop hfu
      match fu, hfu with
      | fu + 1, hfu =>
        show parseJv (fu + 1) .value
            ('{' :: ((renderJStr k ++ ':' :: (renderJv false w ++ renderJv true t)) ++ rest))
          = some (.jobjCons k w t, rest)
        rw [parseJv_value_cons, if_neg (by decide), if_neg (by decide), if_neg (by decide),
          if_neg (by decide), if_neg (by decide), if_pos rfl]
        have hhd : ((renderJStr k ++ ':' :: (renderJv false w ++ renderJv true t))
            ++ rest).head? = some '"' := rfl
        rw [if_neg (by
          intro hcontra
          rw [hhd] at hcontra
          exact absurd hcontra (by decide))]
        rw [show (renderJStr k ++ ':' :: (renderJv false w ++ renderJv true t)) ++ rest
            = renderJStr k ++ ':' :: (renderJv false w ++ (renderJv true t ++ rest)) by
          simp]
        exact hkeyed fu hok (by omega)
    · intro k' w' t' hveq hok hfu
      injection hveq with e1 e2 e3
      subst e1
      subst e2
      subst e3
      exact hkeyed fu hok hfu

theorem renderJStr_length (s : String) : 2 ≤ (renderJStr s).length := by
  show 2 ≤ ('"' :: (escChars s.data ++ ['"'])).length
  simp

theorem jfuel_le_len (v : Jval) : ∀ b : Bool, jfuel v ≤ (renderJv b v).length := by
  induction v with
  | jnull => intro b; cases b <;> simp [renderJv, jfuel]
  | jbool bb => intro b; cases b <;> cases bb <;> simp [renderJv, jfuel]
  | jnum neg m p =>
    intro b
    obtain ⟨c, cs, h, _⟩ := renderNumAbs_head m p
    have hlen : 1 ≤ (renderNumAbs m p).length := by rw [h]; simp
    cases b <;> cases neg <;> simp [renderJv, jfuel, List.length_append] <;> omega
  | jstr s =>
    intro b
    have := renderJStr_length s
    cases b <;> simp [renderJv, jfuel] <;> omega
  | jarrNil => intro b; cases b <;> simp [renderJv, jfuel]
  | jobjNil => intro b; cases b <;> simp [renderJv, jfuel]
  | jarrCons h t ih_h ih_t =>
    intro b
    have h1 := ih_h false
    have h2 := ih_t true
    cases b <;> simp [renderJv, jfuel, List.length_append] <;> omega
  | jobjCons k w t ih_w ih_t =>
    intro b
    have h1 := ih_w false
    have h2 := ih_t true
    have h3 := renderJStr_length k
    cases b <;> simp [renderJv, jfuel, List.length_append, List.length_cons] <;> omega

/-- `JSON.stringify` of a value, as stored in a text column. -/
def stringifyJ (v : Jval) : String := String.mk (renderJv false v)

/-- `JSON.parse` of a whole stored text: the value must run to the end. -/
def parseJson (s : String) : Option Jval :=
  match parseJv (s.data.length + 1) .value s.data with
  | some (w, []) => some w
  | _ => none

/-- Round trip of the stored JSON text columns: `JSON.parse` recovers every
well-formed stringified value exactly. -/
theorem parseJson_stringifyJ (v : Jval) (h : JvalOk v = true) :
    parseJson (stringifyJ v) = some v := by
  have hlen := jfuel_le_len v false
  have h1 := (parseJv_render v ((renderJv false v).length + 1) []).1 h rfl (by omega)
  rw [List.append_nil] at h1
  show (match parseJv ((renderJv false v).length + 1) .value (renderJv false v) with
    | some (w, []) => some w
    | _ => none) = some v
  rw [h1]

theorem stringifyJ_ne_empty (v : Jval) : stringifyJ v ≠ "" := by
  obtain ⟨c, cs, h, _⟩ := renderJv_false_head_ne v
  intro hcontra
  have hd := congrArg String.data hcontra
  rw [show (stringifyJ v).data = renderJv false v from rfl, h] at hd
  cases hd

/-- `x ? JSON.stringify(x) : null` on an optional JSON payload: a present
truthy value is stringified, a falsy one stores `null`. -/
def encodeJsonCol : Option Jval → Option String
  | some j => if jsTruthy j then some (stringifyJ j) else none
  | none => none

/-- `col ? JSON.parse(col) : null` in the formatter: a `null` or empty
(falsy) column gives `null`; a parse failure propagates as a thrown
error (`none`). -/
def decodeJsonCol : Option String → Option (Option Jval)
  | some s => if s = "" then some none else (parseJson s).map some
  | none => some none

/-- The payload the formatter hands back for a freshly written column. -/
def truthyOpt : Option Jval → Option Jval
  | some j => if jsTruthy j then some j else none
  | none => none

theorem decodeJsonCol_encode (o : Option Jval)
    (hok : ∀ j, o = some j → jsTruthy j = true → JvalOk j = true) :
    decodeJsonCol (encodeJsonCol o) = some (truthyOpt o) := by
  cases o with
  | none => rfl
  | some j =>
    by_cases hj : jsTruthy j = true
    · show decodeJsonCol (if jsTruthy j then some (stringifyJ j) else none) = _
      rw [if_pos hj]
      show (if stringifyJ j = "" then some none else (parseJson (stringifyJ j)).map some) = _
      rw [if_neg (stringifyJ_ne_empty j), parseJson_stringifyJ j (hok j rfl hj)]
      show some (some j) = some (truthyOpt (some j))
      rw [show truthyOpt (some j) = some j by
        show (if jsTruthy j then some j else none) = _
        rw [if_pos hj]]
    · show decodeJsonCol (if jsTruthy j then some (stringifyJ j) else none) = _
      rw [if_neg hj]
      show some none = some (truthyOpt (some j))
      rw [show truthyOpt (some j) = none by
        show (if jsTruthy j then some j else none) = _
        rw [if_neg hj]]


/-! ### Timestamps

Rows carry native timestamps (`DateTime` columns, modelled as milliseconds
since the Unix epoch); the formatter emits them with
`Date.prototype.toISOString`, modelled here through the standard
civil-from-days conversion. -/

/-- Gregorian date of a day count since 1970-01-01 (valid for `z ≥ 0`):
returns `(year, month, day)`. -/
def civilFromDays (z : Nat) : Nat × Nat × Nat :=
  let z2 := z + 719468
  let era := z2 / 146097
  let doe := z2 % 146097
  let yoe := (doe - doe / 1460 + doe / 36524 - doe / 146096) / 365
  let doy := doe - (365 * yoe + yoe / 4 - yoe / 100)
  let mp := (5 * doy + 2) / 153
  let d := doy - (153 * mp + 2) / 5 + 1
  let m := if mp < 10 then mp + 3 else mp - 9
  (yoe + era * 400 + (if m ≤ 2 then 1 else 0), m, d)

/-- Day count since 1970-01-01 of a Gregorian date (valid for years ≥ 1970). -/
def daysFromCivil (y m d : Nat) : Nat :=
  let y2 := if m ≤ 2 then y - 1 else y
  let era := y2 / 400
  let yoe := y2 % 400
  let mp := if 2 < m then m - 3 else m + 9
  let doy := (153 * mp + 2) / 5 + d - 1
  let doe := yoe * 365 + yoe / 4 - yoe / 100 + doy
  era * 146097 + doe - 719468

/-- Left-pads a digit string with zeros to the requested width. -/
def padTo (k : Nat) (cs : List Char) : List Char :=
  List.replicate (k - cs.length) '0' ++ cs

/-- Model of `Date.prototype.toISOString` on an epoch-millisecond value:
`YYYY-MM-DDTHH:MM:SS.mmmZ`. -/
def toISOString (t : Nat) : String :=
  let days := t / 86400000
  let ms := t % 86400000
  let ymd := civilFromDays days
  String.mk (padTo 4 (natChars ymd.1)
    ++ '-' :: padTo 2 (natChars ymd.2.1)
    ++ '-' :: padTo 2 (natChars ymd.2.2)
    ++ 'T' :: padTo 2 (natChars (ms / 3600000))
    ++ ':' :: padTo 2 (natChars (ms % 3600000 / 60000))
    ++ ':' :: padTo 2 (natChars (ms % 60000 / 1000))
    ++ '.' :: padTo 3 (natChars (ms % 1000))
    ++ ['Z'])

def eatDigits : Nat → List Char → Option (List Char)
  | 0, cs => some cs
  | _ + 1, [] => none
  | k + 1, c :: cs => if isDigitChar c then eatDigits k cs else none

def eatChar (ch : Char) : List Char → Option (List Char)
  | c :: cs => if c = ch then some cs else none
  | [] => none

/-- Recognizer for the `YYYY-MM-DDTHH:MM:SS.mmmZ` ISO-8601 shape. -/
def isISO8601 (s : String) : Bool :=
  (do
    let r ← eatDigits 4 s.data
    let r ← eatChar '-' r
    let r ← eatDigits 2 r
    let r ← eatChar '-' r
    let r ← eatDigits 2 r
    let r ← eatChar 'T' r
    let r ← eatDigits 2 r
    let r ← eatChar ':' r
    let r ← eatDigits 2 r
    let r ← eatChar ':' r
    let r ← eatDigits 2 r
    let r ← eatChar '.' r
    let r ← eatDigits 3 r
    let r ← eatChar 'Z' r
    if r.isEmpty then some () else none).isSome

theorem civilFromDays_bounds (z : Nat) (hz : z ≤ 2932896) :
    (civilFromDays z).1 ≤ 9999 ∧ 1 ≤ (civilFromDays z).2.1 ∧ (civilFromDays z).2.1 ≤ 12
      ∧ 1 ≤ (civilFromDays z).2.2 ∧ (civilFromDays z).2.2 ≤ 31 := by
  unfold civilFromDays
  dsimp only
  split <;> split <;> omega

theorem natChars_length_le : ∀ k n, 1 ≤ k → n < 10 ^ k → (natChars n).length ≤ k := by
  intro k
  induction k with
  | zero => omega
  | succ k ih =>
    intro n _ hn
    by_cases h10 : 10 ≤ n
    · have hk1 : 1 ≤ k := by
        by_contra hk
        have : k = 0 := by omega
        subst this
        simp at hn
        omega
      rw [natChars_split n h10]
      have hdiv : n / 10 < 10 ^ k := by
        rw [Nat.pow_succ] at hn
        omega
      have := ih (n / 10) hk1 hdiv
      simp only [List.length_append, List.length_singleton]
      omega
    · rw [natChars_small n (by omega)]
      simp

theorem padTo_length (k : Nat) (cs : List Char) (h : cs.length ≤ k) :
    (padTo k cs).length = k := by
  unfold padTo
  simp
  omega

theorem padTo_digits (k : Nat) (cs : List Char) (h : ∀ c ∈ cs, isDigitChar c = true) :
    ∀ c ∈ padTo k cs, isDigitChar c = true := by
  intro c hc
  unfold padTo at hc
  rcases List.mem_append.mp hc with h0 | h0
  · rw [List.eq_of_mem_replicate h0]
    decide
  · exact h c h0

theorem eatDigits_append (cs : List Char) : ∀ rest, (∀ c ∈ cs, isDigitChar c = true) →
    eatDigits cs.length (cs ++ rest) = some rest := by
  induction cs with
  | nil => intro rest _; rfl
  | cons c cs ih =>
    intro rest h
    show eatDigits (cs.length + 1) (c :: (cs ++ rest)) = some rest
    unfold eatDigits
    rw [if_pos (h c (by simp))]
    exact ih rest (fun c hc => h c (by simp [hc]))

theorem eatDigits_padTo (k : Nat) (cs : List Char) (rest : List Char)
    (hlen : cs.length ≤ k) (h : ∀ c ∈ cs, isDigitChar c = true) :
    eatDigits k (padTo k cs ++ rest) = some rest := by
  have h1 := padTo_length k cs hlen
  have h2 := padTo_digits k cs h
  nth_rewrite 1 [← h1]
  exact eatDigits_append (padTo k cs) rest h2

theorem eatChar_cons (ch : Char) (cs : List Char) : eatChar ch (ch :: cs) = some cs := by
  show (if ch = ch then some cs else none) = some cs
  rw [if_pos rfl]

theorem eatDigits_exact (k : Nat) (cs rest : List Char)
    (h : ∀ c ∈ cs, isDigitChar c = true) (hlen : cs.length = k) :
    eatDigits k (cs ++ rest) = some rest := by
  subst hlen
  exact eatDigits_append cs rest h

theorem isISO8601_build (a b c d e f g : List Char)
    (ha : ∀ x ∈ a, isDigitChar x = true) (hb : ∀ x ∈ b, isDigitChar x = true)
    (hc : ∀ x ∈ c, isDigitChar x = true) (hd : ∀ x ∈ d, isDigitChar x = true)
    (he : ∀ x ∈ e, isDigitChar x = true) (hf : ∀ x ∈ f, isDigitChar x = true)
    (hg : ∀ x ∈ g, isDigitChar x = true)
    (la : a.length = 4) (lb : b.length = 2) (lc : c.length = 2) (ld : d.length = 2)
    (le : e.length = 2) (lf : f.length = 2) (lg : g.length = 3) :
    isISO8601 (String.mk (a ++ '-' :: b ++ '-' :: c ++ 'T' :: d ++ ':' :: e
      ++ ':' :: f ++ '.' :: g ++ ['Z'])) = true := by
  unfold isISO8601
  simp only [List.append_assoc, List.cons_append, Option.bind_eq_bind]
  show (do
    let r ← eatDigits 4 (a ++ '-' :: (b ++ '-' :: (c ++ 'T' :: (d ++ ':' :: (e
      ++ ':' :: (f ++ '.' :: (g ++ ['Z'])))))))
    let r ← eatChar '-' r
    let r ← eatDigits 2 r
    let r ← eatChar '-' r
    let r ← eatDigits 2 r
    let r ← eatChar 'T' r
    let r ← eatDigits 2 r
    let r ← eatChar ':' r
    let r ← eatDigits 2 r
    let r ← eatChar ':' r
    let r ← eatDigits 2 r
    let r ← eatChar '.' r
    let r ← eatDigits 3 r
    let r ← eatChar 'Z' r
    if r.isEmpty then some () else none).isSome = true
  rw [eatDigits_exact 4 a _ ha la]
  simp only [Option.bind_eq_bind, Option.some_bind]
  rw [eatChar_cons]
  simp only [Option.bind_eq_bind, Option.some_bind]
  rw [eatDigits_exact 2 b _ hb lb]
  simp only [Option.bind_eq_bind, Option.some_bind]
  rw [eatChar_cons]
  simp only [Option.bind_eq_bind, Option.some_bind]
  rw [eatDigits_exact 2 c _ hc lc]
  simp only [Option.bind_eq_bind, Option.some_bind]
  rw [eatChar_cons]
  simp only [Option.bind_eq_bind, Option.some_bind]
  rw [eatDigits_exact 2 d _ hd ld]
  simp only [Option.bind_eq_bind, Option.some_bind]
  rw [eatChar_cons]
  simp only [Option.bind_eq_bind, Option.some_bind]
  rw [eatDigits_exact 2 e _ he le]
  simp only [Option.bind_eq_bind, Option.some_bind]
  rw [eatChar_cons]
  simp only [Option.bind_eq_bind, Option.some_bind]
  rw [eatDigits_exact 2 f _ hf lf]
  simp only [Option.bind_eq_bind, Option.some_bind]
  rw [eatChar_cons]
  simp only [Option.bind_eq_bind, Option.some_bind]
  rw [eatDigits_exact 3 g _ hg lg]
  simp only [Option.bind_eq_bind, Option.some_bind]
  rw [eatChar_cons]
  rfl

/-- Any timestamp up to the end of year 9999 is emitted in the
`YYYY-MM-DDTHH:MM:SS.mmmZ` shape. -/
theorem toISOString_isISO8601 (t : Nat) (ht : t < 253402300800000) :
    isISO8601 (toISOString t) = true := by
  have hdays : t / 86400000 ≤ 2932896 := by omega
  obtain ⟨hy, hm1, hm2, hd1, hd2⟩ := civilFromDays_bounds (t / 86400000) hdays
  show isISO8601 (String.mk (padTo 4 (natChars (civilFromDays (t / 86400000)).1)
    ++ '-' :: padTo 2 (natChars (civilFromDays (t / 86400000)).2.1)
    ++ '-' :: padTo 2 (natChars (civilFromDays (t / 86400000)).2.2)
    ++ 'T' :: padTo 2 (natChars (t % 86400000 / 3600000))
    ++ ':' :: padTo 2 (natChars (t % 86400000 % 3600000 / 60000))
    ++ ':' :: padTo 2 (natChars (t % 86400000 % 60000 / 1000))
    ++ '.' :: padTo 3 (natChars (t % 86400000 % 1000))
    ++ ['Z'])) = true
  refine isISO8601_build _ _ _ _ _ _ _
    (padTo_digits _ _ (natChars_all_digits _)) (padTo_digits _ _ (natChars_all_digits _))
    (padTo_digits _ _ (natChars_all_digits _)) (padTo_digits _ _ (natChars_all_digits _))
    (padTo_digits _ _ (natChars_all_digits _)) (padTo_digits _ _ (natChars_all_digits _))
    (padTo_digits _ _ (natChars_all_digits _)) ?_ ?_ ?_ ?_ ?_ ?_ ?_
  · exact padTo_length _ _ (natChars_length_le 4 _ (by norm_num) (by omega))
  · exact padTo_length _ _ (natChars_length_le 2 _ (by norm_num) (by omega))
  · exact padTo_length _ _ (natChars_length_le 2 _ (by norm_num) (by omega))
  · exact padTo_length _ _ (natChars_length_le 2 _ (by norm_num) (by omega))
  · exact padTo_length _ _ (natChars_length_le 2 _ (by norm_num) (by omega))
  · exact padTo_length _ _ (natChars_length_le 2 _ (by norm_num) (by omega))
  · exact padTo_length _ _ (natChars_length_le 3 _ (by norm_num) (by omega))

/-! ### Data model

Stored rows follow `prisma/schema.prisma` (`LinkedinPost`, `WebsiteSummary`);
wire shapes follow `src/types` (`LinkedinPostData`, `WebsiteSummaryResponse`).
`DateTime` columns are epoch milliseconds; `Json?` columns hold the
`JSON.stringify` text the services store in them.  `AppErr` models a thrown
`AppError (message, statusCode)`. -/

structure AppErr where
  message : String
  statusCode : Nat
deriving DecidableEq

deriving instance DecidableEq for Except

structure LinkedinPost where
  id : String
  title : Option String
  content : String
  author : String
  postUrl : String
  linkedinPostId : Option String
  platform : String
  engagement : Option String
  metadata : Option String
  savedAt : Nat
  userId : String
  createdAt : Nat
  updatedAt : Nat
deriving DecidableEq

structure LinkedinPostData where
  id : String
  title : Option String
  content : String
  author : String
  postUrl : String
  linkedinPostId : Option String
  platform : String
  engagement : Option Jval
  metadata : Option Jval
  savedAt : String
  createdAt : String
  updatedAt : String
deriving DecidableEq

structure SaveLinkedinPostDto where
  title : Option String := none
  content : String
  author : String
  postUrl : String
  linkedinPostId : Option String := none
  platform : Option String := none
  engagement : Option Jval := none
  metadata : Option Jval := none
deriving DecidableEq

/-- Update payload.  The outer `Option` is property presence (`undefined`
when absent).  For the string fields the inner `Option` distinguishes an
explicit `null` from a string, which matters because `title` is checked with
`!== undefined` while the other fields are checked for truthiness; for the
JSON fields an explicit `null` is the value `Jval.jnull` itself. -/
structure UpdateLinkedinPostDto where
  title : Option (Option String) := none
  content : Option (Option String) := none
  author : Option (Option String) := none
  engagement : Option Jval := none
  metadata : Option Jval := none
deriving DecidableEq

abbrev LinkedinDb := List LinkedinPost

/-! ### Record formatter (`LinkedinService.formatPost`)

Pure mapping from a stored row to its wire shape: `JSON.parse` on the
`engagement`/`metadata` text (JS truthiness: a `null` or empty column gives
`null`; malformed JSON throws, modelled by `none`), `toISOString` on the
timestamps, everything else passed through. -/

def formatPost (p : LinkedinPost) : Option LinkedinPostData := do
  let eng ← decodeJsonCol p.engagement
  let md ← decodeJsonCol p.metadata
  some
    { id := p.id
      title := p.title
      content := p.content
      author := p.author
      postUrl := p.postUrl
      linkedinPostId := p.linkedinPostId
      platform := p.platform
      engagement := eng
      metadata := md
      savedAt := toISOString p.savedAt
      createdAt := toISOString p.createdAt
      updatedAt := toISOString p.updatedAt }

/-- Row built by the `prisma.linkedinPost.create` call in
`LinkedinService.savePost`: `title`/`linkedinPostId` go through `|| null`,
`platform` through `|| 'linkedin'`, and the JSON payloads through
`JSON.stringify` when truthy. -/
def mkLinkedinPost (userId : String) (dto : SaveLinkedinPostDto) (newId : String)
    (now : Nat) : LinkedinPost :=
  { id := newId
    title := jsStrOrNull dto.title
    content := dto.content
    author := dto.author
    postUrl := dto.postUrl
    linkedinPostId := jsStrOrNull dto.linkedinPostId
    platform := jsStrOr dto.platform "linkedin"
    engagement := encodeJsonCol dto.engagement
    metadata := encodeJsonCol dto.metadata
    savedAt := now
    userId := userId
    createdAt := now
    updatedAt := now }

/-- `LinkedinService.savePost` with the storage states at its two round trips
made explicit: the duplicate check reads `dbCheck`, the insert runs against
`dbCreate` (a concurrent writer may have changed the database in between;
the sequential case is `savePost`, where both coincide).  The insert enforces
the `linkedin_posts_userId_postUrl_key` unique index; any raised storage
error is caught by the method's `catch` and rethrown as
`AppError('Failed to save LinkedIn post', 500)`. -/
def savePostRace (dbCheck dbCreate : LinkedinDb) (userId : String)
    (dto : SaveLinkedinPostDto) (newId : String) (now : Nat) :
    LinkedinDb × Except AppErr LinkedinPostData :=
  match dbCheck.find? (fun p => p.userId == userId && p.postUrl == dto.postUrl) with
  | some existing =>
    (dbCreate, match formatPost existing with
      | some d => .ok d
      | none => .error ⟨"Failed to save LinkedIn post", 500⟩)
  | none =>
    if dbCreate.any (fun p => p.userId == userId && p.postUrl == dto.postUrl) then
      (dbCreate, .error ⟨"Failed to save LinkedIn post", 500⟩)
    else
      let p := mkLinkedinPost userId dto newId now
      (p :: dbCreate, match formatPost p with
        | some d => .ok d
        | none => .error ⟨"Failed to save LinkedIn post", 500⟩)

/-- `LinkedinService.savePost` run without interference. -/
def savePost (db : LinkedinDb) (userId : String) (dto : SaveLinkedinPostDto)
    (newId : String) (now : Nat) : LinkedinDb × Except AppErr LinkedinPostData :=
  savePostRace db db userId dto newId now

/-! ### Query parameters and filtering (`LinkedinService.getPosts`) -/

inductive SortField where
  | savedAt
  | createdAt
  | author
  | title
deriving DecidableEq

inductive SortOrder where
  | asc
  | desc
deriving DecidableEq

/-- `LinkedinPostQueryParams`; `none` is an omitted (`undefined`) parameter.
Date bounds are carried as the epoch milliseconds of the validated datetime
strings. -/
structure LinkedinPostQueryParams where
  page : Option Nat := none
  limit : Option Nat := none
  search : Option String := none
  author : Option String := none
  startDate : Option Nat := none
  endDate : Option Nat := none
  sortBy : Option SortField := none
  sortOrder : Option SortOrder := none
deriving DecidableEq

def lowerChars (cs : List Char) : List Char := cs.map Char.toLower

def containsSub (hay needle : List Char) : Bool :=
  if needle.isPrefixOf hay then true
  else
    match hay with
    | [] => false
    | _ :: t => containsSub t needle

/-- Case-insensitive substring test — the `contains`/`mode: 'insensitive'`
filter. -/
def containsInsens (hay needle : String) : Bool :=
  containsSub (lowerChars hay.data) (lowerChars needle.data)

/-- The `where` clause of `getPosts`: always scoped by `userId`; the
`author`, date-range and `search` filters are added by conditional spread, so
a falsy (empty) `author`/`search` and a half-open date range contribute no
condition. -/
def postMatches (userId : String) (params : LinkedinPostQueryParams)
    (p : LinkedinPost) : Bool :=
  p.userId == userId
  && (match params.author with
      | some a => if a = "" then true else containsInsens p.author a
      | none => true)
  && (match params.startDate, params.endDate with
      | some sd, some ed => decide (sd ≤ p.savedAt) && decide (p.savedAt ≤ ed)
      | _, _ => true)
  && (match params.search with
      | some s =>
        if s = "" then true
        else (match p.title with
              | some t => containsInsens t s
              | none => false)
          || containsInsens p.content s || containsInsens p.author s
      | none => true)

def insertLE {α : Type} (le : α → α → Bool) (a : α) : List α → List α
  | [] => [a]
  | b :: bs => if le a b then a :: b :: bs else b :: insertLE le a bs

/-- Stable insertion sort modelling the storage layer's `orderBy`. -/
def sortLE {α : Type} (le : α → α → Bool) (l : List α) : List α :=
  l.foldr (insertLE le) []

def optStrLE : Option String → Option String → Bool
  | none, _ => true
  | some _, none => false
  | some a, some b => decide (a ≤ b)

def postKeyLE (sb : SortField) (p q : LinkedinPost) : Bool :=
  match sb with
  | .savedAt => decide (p.savedAt ≤ q.savedAt)
  | .createdAt => decide (p.createdAt ≤ q.createdAt)
  | .author => decide (p.author ≤ q.author)
  | .title => optStrLE p.title q.title

def postLE (sb : SortField) (so : SortOrder) (p q : LinkedinPost) : Bool :=
  match so with
  | .asc => postKeyLE sb p q
  | .desc => postKeyLE sb q p

structure PaginationInfo where
  page : Nat
  limit : Nat
  total : Nat
  totalPages : Nat
  hasNext : Bool
  hasPrev : Bool
deriving DecidableEq

structure PaginatedPosts where
  data : List LinkedinPostData
  pagination : PaginationInfo
deriving DecidableEq

/-- `posts.map(post => this.formatPost(post))` — the whole mapping throws if
any row's JSON column is malformed. -/
def formatPosts : List LinkedinPost → Option (List LinkedinPostData)
  | [] => some []
  | p :: ps => do
    let d ← formatPost p
    let ds ← formatPosts ps
    some (d :: ds)

/-- `Math.ceil(a / b)` on non-negative integers with `b ≥ 1`. -/
def ceilDiv (a b : Nat) : Nat := (a + b - 1) / b

/-- `LinkedinService.getPosts`: count and fetch the matching rows, slice the
`(page-1)*limit ..` window of size `limit`, and derive the pagination info.
Defaults (`page = 1`, `limit = 20`, `sortBy = savedAt`, `sortOrder = desc`)
come from the destructuring in the source. -/
def getPosts (db : LinkedinDb) (userId : String) (params : LinkedinPostQueryParams) :
    LinkedinDb × Except AppErr PaginatedPosts :=
  let page := params.page.getD 1
  let limit := params.limit.getD 20
  let sortBy := params.sortBy.getD .savedAt
  let sortOrder := params.sortOrder.getD .desc
  let matching := db.filter (postMatches userId params)
  let total := matching.length
  let posts := ((sortLE (postLE sortBy sortOrder) matching).drop ((page - 1) * limit)).take limit
  let totalPages := ceilDiv total limit
  (db, match formatPosts posts with
    | some ds => .ok
        { data := ds
          pagination :=
            { page := page
              limit := limit
              total := total
              totalPages := totalPages
              hasNext := decide (page < totalPages)
              hasPrev := decide (1 < page) } }
    | none => .error ⟨"Failed to get LinkedIn posts", 500⟩)

/-- `LinkedinService.getPostById`: `findFirst` scoped by `{ id, userId }`;
absence throws `AppError('LinkedIn post not found', 404)`. -/
def getPostById (db : LinkedinDb) (userId postId : String) :
    LinkedinDb × Except AppErr LinkedinPostData :=
  (db, match db.find? (fun p => p.id == postId && p.userId == userId) with
    | none => .error ⟨"LinkedIn post not found", 404⟩
    | some p =>
      match formatPost p with
      | some d => .ok d
      | none => .error ⟨"Failed to get LinkedIn post", 500⟩)

/-- The `data` object of the `prisma.linkedinPost.update` call: `title` is
spread when `!== undefined`, the other fields only when truthy; `updatedAt`
is the row's `@updatedAt` column. -/
def applyPostUpdate (p : LinkedinPost) (u : UpdateLinkedinPostDto) (now : Nat) :
    LinkedinPost :=
  { p with
    title := match u.title with
      | some t => t
      | none => p.title
    content := match u.content with
      | some (some s) => if s = "" then p.content else s
      | _ => p.content
    author := match u.author with
      | some (some s) => if s = "" then p.author else s
      | _ => p.author
    engagement := match u.engagement with
      | some e => if jsTruthy e then some (stringifyJ e) else p.engagement
      | none => p.engagement
    metadata := match u.metadata with
      | some m => if jsTruthy m then some (stringifyJ m) else p.metadata
      | none => p.metadata
    updatedAt := now }

/-- `LinkedinService.updatePost`: ownership-scoped `findFirst`, then an
update keyed on the primary key. -/
def updatePost (db : LinkedinDb) (userId postId : String) (u : UpdateLinkedinPostDto)
    (now : Nat) : LinkedinDb × Except AppErr LinkedinPostData :=
  match db.find? (fun p => p.id == postId && p.userId == userId) with
  | none => (db, .error ⟨"LinkedIn post not found", 404⟩)
  | some p =>
    let p2 := applyPostUpdate p u now
    (db.map (fun q => if q.id == postId then p2 else q),
      match formatPost p2 with
      | some d => .ok d
      | none => .error ⟨"Failed to update LinkedIn post", 500⟩)

/-- `LinkedinService.deletePost`: ownership-scoped `findFirst`, then a delete
keyed on the primary key. -/
def deletePost (db : LinkedinDb) (userId postId : String) :
    LinkedinDb × Except AppErr Unit :=
  match db.find? (fun p => p.id == postId && p.userId == userId) with
  | none => (db, .error ⟨"LinkedIn post not found", 404⟩)
  | some _ => (db.filter (fun q => !(q.id == postId)), .ok ())

structure BulkDeleteResult where
  newDb : LinkedinDb
  outcome : Except AppErr Nat
  storageInvoked : Bool
deriving DecidableEq

/-- `LinkedinService.bulkDeletePosts`: an empty id list returns
`deletedCount: 0` before any storage call; otherwise one `deleteMany` scoped
by `{ id: { in: postIds }, userId }`, whose `count` is the number of rows it
removed. -/
def bulkDeletePosts (db : LinkedinDb) (userId : String) (postIds : List String) :
    BulkDeleteResult :=
  if postIds.isEmpty then ⟨db, .ok 0, false⟩
  else
    ⟨db.filter (fun p => !(postIds.contains p.id && p.userId == userId)),
      .ok ((db.filter (fun p => postIds.contains p.id && p.userId == userId)).length),
      true⟩

/-! ### Statistics (`LinkedinService.getPostStats`) -/

structure AuthorCount where
  author : String
  count : Nat
deriving DecidableEq

structure RecentActivityItem where
  id : String
  title : String
  author : String
  savedAt : String
deriving DecidableEq

structure LinkedinPostStats where
  totalPosts : Nat
  postsThisMonth : Nat
  postsThisWeek : Nat
  topAuthors : List AuthorCount
  recentActivity : List RecentActivityItem
deriving DecidableEq

/-- Epoch milliseconds of the first day of the wall-clock month containing
`now` — `new Date(now.getFullYear(), now.getMonth(), 1)` on a UTC server. -/
def startOfMonthMs (now : Nat) : Nat :=
  let ymd := civilFromDays (now / 86400000)
  daysFromCivil ymd.1 ymd.2.1 1 * 86400000

def dedupStrings : List String → List String
  | [] => []
  | s :: rest => s :: (dedupStrings rest).filter (fun t => !(t == s))

/-- `LinkedinService.getPostStats`: four owner-scoped read-only aggregates
over the same state (total, month and 7-day window counts, `groupBy author`
descending capped at 10, five most recent rows).  `topAuthors` ties keep the
grouping order, matching the storage layer's unspecified tie order. -/
def getPostStats (db : LinkedinDb) (userId : String) (now : Nat) :
    LinkedinDb × Except AppErr LinkedinPostStats :=
  let mine := db.filter (fun p => p.userId == userId)
  let startOfMonth := startOfMonthMs now
  let startOfWeek := now - 7 * 24 * 60 * 60 * 1000
  let grouped := (dedupStrings (mine.map (fun p => p.author))).map
    (fun a => AuthorCount.mk a ((mine.filter (fun p => p.author == a)).length))
  (db, .ok
    { totalPosts := mine.length
      postsThisMonth :=
        (db.filter (fun p => p.userId == userId && decide (startOfMonth ≤ p.savedAt))).length
      postsThisWeek :=
        (db.filter (fun p => p.userId == userId && decide (startOfWeek ≤ p.savedAt))).length
      topAuthors := (sortLE (fun x y : AuthorCount => decide (y.count ≤ x.count)) grouped).take 10
      recentActivity :=
        ((sortLE (fun p q : LinkedinPost => decide (q.savedAt ≤ p.savedAt)) mine).take 5).map
          (fun p =>
            { id := p.id
              title := jsStrOr p.title ("Post by " ++ p.author)
              author := p.author
              savedAt := toISOString p.savedAt }) })

/-! ### Website summaries (`WebsiteSummaryService`) -/

structure WebsiteSummary where
  id : String
  title : String
  content : String
  summary : String
  url : String
  websiteName : String
  faviconUrl : Option String
  userId : String
  createdAt : Nat
  updatedAt : Nat
deriving DecidableEq

structure WebsiteSummaryData where
  id : String
  title : String
  content : String
  summary : String
  url : String
  websiteName : String
  faviconUrl : Option String
  createdAt : String
  updatedAt : String
deriving DecidableEq

structure WebsiteSummaryResponse extends WebsiteSummaryData where
  isNew : Bool
deriving DecidableEq

structure CreateWebsiteSummaryDto where
  title : String
  content : String
  url : String
deriving DecidableEq

abbrev WebsiteDb := List WebsiteSummary

/-- `WebsiteSummaryService.formatSummary`: timestamps to ISO strings,
everything else passed through (no JSON columns here, so it is total). -/
def formatSummary (s : WebsiteSummary) : WebsiteSummaryData :=
  { id := s.id
    title := s.title
    content := s.content
    summary := s.summary
    url := s.url
    websiteName := s.websiteName
    faviconUrl := s.faviconUrl
    createdAt := toISOString s.createdAt
    updatedAt := toISOString s.updatedAt }

/-- Hostname extraction of the `URL` built-in: the part after `://` up to the
first `/`, `?` or `#`, with userinfo and port stripped and case folded;
`none` when the string has no scheme separator (the constructor throws). -/
def hostnameOf (url : String) : Option String :=
  (afterSchemeSep url.data).map (fun cs =>
    let hostPort := cs.takeWhile (fun c => !(c = '/' || c = '?' || c = '#'))
    let afterUser := if hostPort.contains '@'
      then (hostPort.reverse.takeWhile (fun c => !(c = '@'))).reverse
      else hostPort
    String.mk (lowerChars (afterUser.takeWhile (fun c => !(c = ':')))))
where
  afterSchemeSep : List Char → Option (List Char)
    | ':' :: '/' :: '/' :: rest => some rest
    | _ :: rest => afterSchemeSep rest
    | [] => none

/-- Origin of the `URL` built-in, reduced to scheme and host (ports are not
exercised by this service's callers). -/
def originOf (url : String) : Option String :=
  (hostnameOf url).map (fun h =>
    String.mk (lowerChars (url.data.takeWhile (fun c => !(c = ':')))) ++ "://" ++ h)

/-- The hard-coded pretty-name table of `extractWebsiteName`. -/
def websiteNames : List (String × String) :=
  [("medium.com", "Medium"), ("dev.to", "Dev.to"), ("substack.com", "Substack"),
   ("hashnode.com", "Hashnode"), ("hackernoon.com", "HackerNoon"),
   ("freecodecamp.org", "freeCodeCamp"),
   ("towardsdatascience.com", "Towards Data Science"), ("css-tricks.com", "CSS-Tricks"),
   ("smashingmagazine.com", "Smashing Magazine"), ("a16z.com", "Andreessen Horowitz"),
   ("techcrunch.com", "TechCrunch"), ("wired.com", "Wired"), ("theverge.com", "The Verge"),
   ("github.com", "GitHub"), ("stackoverflow.com", "Stack Overflow"),
   ("reddit.com", "Reddit")]

/-- `domain.replace('www.', '')` — JS `String.replace` with a string pattern
removes only the first occurrence, wherever it is. -/
def removeFirstWww (cs : List Char) : List Char :=
  match cs with
  | 'w' :: 'w' :: 'w' :: '.' :: rest => rest
  | c :: rest => c :: removeFirstWww rest
  | [] => []

def capitalizeFirst (s : String) : String :=
  match s.data with
  | [] => ""
  | c :: rest => String.mk (c.toUpper :: rest)

/-- `WebsiteSummaryService.extractWebsiteName`: exact table hit, then an
`endsWith` scan in table order, then the capitalized first dot-segment;
`'Unknown'` when the URL does not parse. -/
def extractWebsiteName (url : String) : String :=
  match hostnameOf url with
  | none => "Unknown"
  | some h =>
    let domain : String := String.mk (removeFirstWww h.data)
    match websiteNames.lookup domain with
    | some v => v
    | none =>
      match websiteNames.find? (fun kv => domain.endsWith kv.1) with
      | some kv => kv.2
      | none => capitalizeFirst (String.mk (domain.data.takeWhile (fun c => !(c = '.'))))

/-- `WebsiteSummaryService.getFaviconUrl`: `origin + '/favicon.ico'`, with the
Google favicon service as the fallback when the URL does not parse. -/
def getFaviconUrl (url : String) : String :=
  match originOf url with
  | some o => o ++ "/favicon.ico"
  | none => "https://www.google.com/s2/favicons?domain=" ++ url

/-- `WebsiteSummaryService.generateSummary` with the completion client
abstracted as `gen` (`none` = upstream failure): the result text is trimmed;
any failure is rethrown as `AppError('Failed to generate article summary',
500)`. -/
def isJsWs (c : Char) : Bool := c = ' ' || c = '\t' || c = '\n' || c = '\r'

def jsTrim (s : String) : String :=
  String.mk (((s.data.dropWhile isJsWs).reverse.dropWhile isJsWs).reverse)

def generateSummaryWith (gen : String → Option String) (content : String) :
    Except AppErr String :=
  match gen content with
  | some text => .ok (jsTrim text)
  | none => .error ⟨"Failed to generate article summary", 500⟩

/-- `WebsiteSummaryService.createOrGetSummary`: duplicate-guarded by
`(userId, url)`; a hit returns the stored row with `isNew: false` and writes
nothing; otherwise the summary is generated (a falsy result throws
`AppError('Failed to generate summary', 500)`) and a new row is inserted and
returned with `isNew: true`. -/
def createOrGetSummary (db : WebsiteDb) (userId : String) (dto : CreateWebsiteSummaryDto)
    (gen : String → Option String) (newId : String) (now : Nat) :
    WebsiteDb × Except AppErr WebsiteSummaryResponse :=
  match db.find? (fun s => s.userId == userId && s.url == dto.url) with
  | some existing => (db, .ok ⟨formatSummary existing, false⟩)
  | none =>
    match generateSummaryWith gen dto.content with
    | .error e => (db, .error e)
    | .ok text =>
      if text = "" then (db, .error ⟨"Failed to generate summary", 500⟩)
      else
        let s : WebsiteSummary :=
          { id := newId
            title := dto.title
            content := dto.content
            summary := text
            url := dto.url
            websiteName := extractWebsiteName dto.url
            faviconUrl := some (getFaviconUrl dto.url)
            userId := userId
            createdAt := now
            updatedAt := now }
        (s :: db, .ok ⟨formatSummary s, true⟩)

/-- `WebsiteSummaryService.getSummaryByUrl`: a read-only `(userId, url)`
lookup; absence is a successful `data: null` response, a hit is returned with
`isNew: false`. -/
def getSummaryByUrl (db : WebsiteDb) (userId url : String) :
    WebsiteDb × Except AppErr (Option WebsiteSummaryResponse) :=
  match db.find? (fun s => s.userId == userId && s.url == url) with
  | none => (db, .ok none)
  | some s => (db, .ok (some ⟨formatSummary s, false⟩))

/-! ### Controller query parsing

`LinkedinController.getPosts` and `SummaryController.getSummaries` both turn
the raw query strings into effective page/limit values with
`req.query.page ? Math.max(1, parseInt(page) || 1) : 1` and
`req.query.limit ? Math.min(100, Math.max(1, parseInt(limit) || 20)) : 20`.
`none` models an absent query key; the empty string is falsy in JS, so it
takes the same branch as an absent key. -/

/-- `parseInt(s, 10)`: skip whitespace, optional sign, then a maximal digit
prefix; `none` is `NaN`. -/
def parseIntJS (s : String) : Option Int :=
  let cs := s.data.dropWhile isJsWs
  match cs with
  | '-' :: rest => (leadingNat rest).map (fun n => -(n : Int))
  | '+' :: rest => (leadingNat rest).map (fun n => (n : Int))
  | _ => (leadingNat cs).map (fun n => (n : Int))
where
  leadingNat : List Char → Option Nat
    | c :: cs => if isDigitChar c then some (parseNatAux 0 (c :: cs)).1 else none
    | [] => none

/-- JS `x || d` on a number: `NaN` (here `none`) and `0` fall through. -/
def jsNumOr (x : Option Int) (d : Int) : Int :=
  match x with
  | some n => if n = 0 then d else n
  | none => d

/-- Effective page computed by the controllers. -/
def effPage (q : Option String) : Int :=
  match q with
  | some s => if s = "" then 1 else max 1 (jsNumOr (parseIntJS s) 1)
  | none => 1

/-- Effective limit computed by the controllers. -/
def effLimit (q : Option String) : Int :=
  match q with
  | some s => if s = "" then 20 else min 100 (max 1 (jsNumOr (parseIntJS s) 20))
  | none => 20

/-- Raw query strings reaching `LinkedinController.getPosts` (no schema
validation is attached to that route).  Date keys are carried pre-parsed, as
in the service model. -/
structure LinkedinRawQuery where
  page : Option String := none
  limit : Option String := none
  search : Option String := none
  author : Option String := none
  startDate : Option Nat := none
  endDate : Option Nat := none
  sortBy : Option SortField := none
  sortOrder : Option SortOrder := none
deriving DecidableEq

/-- The `queryParams` object `LinkedinController.getPosts` builds and hands to
`linkedinService.getPosts` (the `x ? String(x) : undefined` steps keep a
truthy string and drop the rest; `sortBy`/`sortOrder` go through `|| default`,
applied again by the service's destructuring defaults). -/
def linkedinCtrlParams (q : LinkedinRawQuery) : LinkedinPostQueryParams :=
  { page := some (effPage q.page).toNat
    limit := some (effLimit q.limit).toNat
    search := jsStrOrNull q.search
    author := jsStrOrNull q.author
    startDate := q.startDate
    endDate := q.endDate
    sortBy := some (q.sortBy.getD .savedAt)
    sortOrder := some (q.sortOrder.getD .desc) }

/-- `LinkedinController.getPosts` as a whole: parameter parsing followed by
the service call. -/
def linkedinControllerGetPosts (db : LinkedinDb) (userId : String)
    (q : LinkedinRawQuery) : LinkedinDb × Except AppErr PaginatedPosts :=
  getPosts db userId (linkedinCtrlParams q)

/-- The page/limit part of the `queryParams` object built by
`SummaryController.getSummaries` (the summary service itself is outside this
repository snapshot; the controller's parsing is identical to the LinkedIn
one). -/
def summaryCtrlPageLimit (page limit : Option String) : Nat × Nat :=
  ((effPage page).toNat, (effLimit limit).toNat)

/-! ### Support lemmas -/

theorem formatPost_fields (p : LinkedinPost) (d : LinkedinPostData)
    (h : formatPost p = some d) :
    d.id = p.id ∧ d.title = p.title ∧ d.content = p.content ∧ d.author = p.author
    ∧ d.postUrl = p.postUrl ∧ d.linkedinPostId = p.linkedinPostId
    ∧ d.platform = p.platform
    ∧ decodeJsonCol p.engagement = some d.engagement
    ∧ decodeJsonCol p.metadata = some d.metadata
    ∧ d.savedAt = toISOString p.savedAt ∧ d.createdAt = toISOString p.createdAt
    ∧ d.updatedAt = toISOString p.updatedAt := by
  unfold formatPost at h
  cases he : decodeJsonCol p.engagement with
  | none => rw [he] at h; exact absurd h (by simp)
  | some eng =>
    cases hm : decodeJsonCol p.metadata with
    | none => rw [he, hm] at h; exact absurd h (by simp)
    | some md =>
      rw [he, hm] at h
      simp only [Option.bind_eq_bind, Option.some_bind, Option.some.injEq] at h
      subst h
      exact ⟨rfl, rfl, rfl, rfl, rfl, rfl, rfl, rfl, rfl, rfl, rfl, rfl⟩

/-- The data object written by `create`, as the formatter returns it. -/
def mkPostData (dto : SaveLinkedinPostDto) (newId : String) (now : Nat) :
    LinkedinPostData :=
  { id := newId
    title := jsStrOrNull dto.title
    content := dto.content
    author := dto.author
    postUrl := dto.postUrl
    linkedinPostId := jsStrOrNull dto.linkedinPostId
    platform := jsStrOr dto.platform "linkedin"
    engagement := truthyOpt dto.engagement
    metadata := truthyOpt dto.metadata
    savedAt := toISOString now
    createdAt := toISOString now
    updatedAt := toISOString now }

/-- Formatting a freshly created row succeeds and returns the caller's
payload fields (the JSON columns decoded back to the submitted objects),
provided the submitted payloads are well-formed JSON values. -/
theorem formatPost_mkLinkedinPost (userId : String) (dto : SaveLinkedinPostDto)
    (newId : String) (now : Nat)
    (heok : ∀ j, dto.engagement = some j → jsTruthy j = true → JvalOk j = true)
    (hmok : ∀ j, dto.metadata = some j → jsTruthy j = true → JvalOk j = true) :
    formatPost (mkLinkedinPost userId dto newId now) = some (mkPostData dto newId now) := by
  show (do
    let eng ← decodeJsonCol (encodeJsonCol dto.engagement)
    let md ← decodeJsonCol (encodeJsonCol dto.metadata)
    some ({ id := newId
            title := jsStrOrNull dto.title
            content := dto.content
            author := dto.author
            postUrl := dto.postUrl
            linkedinPostId := jsStrOrNull dto.linkedinPostId
            platform := jsStrOr dto.platform "linkedin"
            engagement := eng
            metadata := md
            savedAt := toISOString now
            createdAt := toISOString now
            updatedAt := toISOString now } : LinkedinPostData))
    = some (mkPostData dto newId now)
  rw [decodeJsonCol_encode dto.engagement heok, decodeJsonCol_encode dto.metadata hmok]
  rfl

theorem insertLE_length {α : Type} (le : α → α → Bool) (a : α) (l : List α) :
    (insertLE le a l).length = l.length + 1 := by
  induction l with
  | nil => rfl
  | cons b bs ih =>
    unfold insertLE
    split
    · rfl
    · simp only [List.length_cons, ih]

theorem sortLE_length {α : Type} (le : α → α → Bool) (l : List α) :
    (sortLE le l).length = l.length := by
  induction l with
  | nil => rfl
  | cons a l ih =>
    show (insertLE le a (sortLE le l)).length = l.length + 1
    rw [insertLE_length, ih]

theorem insertLE_mem {α : Type} (le : α → α → Bool) (a x : α) (l : List α) :
    x ∈ insertLE le a l ↔ x = a ∨ x ∈ l := by
  induction l with
  | nil => simp [insertLE]
  | cons b bs ih =>
    unfold insertLE
    split
    · simp
    · simp only [List.mem_cons, ih]
      tauto

theorem sortLE_mem {α : Type} (le : α → α → Bool) (l : List α) (x : α) :
    x ∈ sortLE le l ↔ x ∈ l := by
  induction l with
  | nil => simp [sortLE]
  | cons a l ih =>
    show x ∈ insertLE le a (sortLE le l) ↔ _
    rw [insertLE_mem, ih]
    simp

theorem formatPosts_length : ∀ (l : List LinkedinPost) (ds : List LinkedinPostData),
    formatPosts l = some ds → ds.length = l.length := by
  intro l
  induction l with
  | nil =>
    intro ds h
    simp only [formatPosts, Option.some.injEq] at h
    subst h
    rfl
  | cons p ps ih =>
    intro ds h
    unfold formatPosts at h
    cases hfp : formatPost p with
    | none => rw [hfp] at h; exact absurd h (by simp)
    | some d =>
      rw [hfp] at h
      cases hfs : formatPosts ps with
      | none => rw [hfs] at h; exact absurd h (by simp)
      | some ds2 =>
        rw [hfs] at h
        simp only [Option.bind_eq_bind, Option.some_bind, Option.some.injEq] at h
        subst h
        simp only [List.length_cons, ih ds2 hfs]

theorem formatPosts_mem : ∀ (l : List LinkedinPost) (ds : List LinkedinPostData),
    formatPosts l = some ds → ∀ d ∈ ds, ∃ p ∈ l, formatPost p = some d := by
  intro l
  induction l with
  | nil =>
    intro ds h
    simp only [formatPosts, Option.some.injEq] at h
    subst h
    simp
  | cons p ps ih =>
    intro ds h
    unfold formatPosts at h
    cases hfp : formatPost p with
    | none => rw [hfp] at h; exact absurd h (by simp)
    | some d0 =>
      rw [hfp] at h
      cases hfs : formatPosts ps with
      | none => rw [hfs] at h; exact absurd h (by simp)
      | some ds2 =>
        rw [hfs] at h
        simp only [Option.bind_eq_bind, Option.some_bind, Option.some.injEq] at h
        subst h
        intro d hd
        rcases List.mem_cons.mp hd with h1 | h1
        · exact ⟨p, by simp, h1 ▸ hfp⟩
        · obtain ⟨q, hq, hfq⟩ := ih ds2 hfs d h1
          exact ⟨q, by simp [hq], hfq⟩

theorem postMatches_userId (userId : String) (params : LinkedinPostQueryParams)
    (p : LinkedinPost) (h : postMatches userId params p = true) : p.userId = userId := by
  unfold postMatches at h
  simp only [Bool.and_eq_true, beq_iff_eq] at h
  exact h.1.1.1

/-! ### Concrete fixtures used by witnesses and counterexamples -/

def post1 : LinkedinPost :=
  { id := "p1", title := some "T1", content := "hello", author := "Alice",
    postUrl := "https://x.com/p/1", linkedinPostId := none, platform := "linkedin",
    engagement := none, metadata := none, savedAt := 1000, userId := "U1",
    createdAt := 1000, updatedAt := 1000 }

def post2 : LinkedinPost :=
  { id := "p2", title := some "T2", content := "world", author := "Bob",
    postUrl := "https://x.com/p/2", linkedinPostId := none, platform := "linkedin",
    engagement := none, metadata := none, savedAt := 2000, userId := "U2",
    createdAt := 2000, updatedAt := 2000 }

def post3 : LinkedinPost :=
  { id := "p3", title := none, content := "third", author := "Alice",
    postUrl := "https://x.com/p/3", linkedinPostId := none, platform := "linkedin",
    engagement := none, metadata := none, savedAt := 3000, userId := "U1",
    createdAt := 3000, updatedAt := 3000 }

def post4 : LinkedinPost :=
  { id := "p4", title := some "T4", content := "fourth", author := "Carol",
    postUrl := "https://x.com/p/4", linkedinPostId := none, platform := "linkedin",
    engagement := none, metadata := none, savedAt := 2500, userId := "U1",
    createdAt := 2500, updatedAt := 2500 }

def sum1 : WebsiteSummary :=
  { id := "w1", title := "W", content := "body", summary := "sum", url := "https://example.com/a",
    websiteName := "Example", faviconUrl := some "https://example.com/favicon.ico",
    userId := "U2", createdAt := 1000, updatedAt := 1000 }

def updNone : UpdateLinkedinPostDto := {}

/-! ### Claims -/

/-- C9: bulk delete never fails on unknown or foreign ids — for every owner
and id list it deletes exactly the rows whose id is listed and whose `userId`
is the owner, reports the number actually removed (possibly fewer than
requested) as a success, and an empty id list yields `deletedCount = 0` with
the database untouched and the storage layer never invoked. -/
theorem bulkDelete_scoped_total (db : LinkedinDb) (userId : String) (ids : List String) :
    (bulkDeletePosts db userId ids).outcome
      = .ok ((db.filter (fun p => ids.contains p.id && p.userId == userId)).length)
    ∧ (∀ q ∈ db, q ∈ (bulkDeletePosts db userId ids).newDb
        ↔ ¬(q.id ∈ ids ∧ q.userId = userId))
    ∧ (ids = [] → bulkDeletePosts db userId ids = ⟨db, .ok 0, false⟩) := by
  unfold bulkDeletePosts
  by_cases hids : ids.isEmpty
  · rw [if_pos hids]
    have hnil : ids = [] := List.isEmpty_iff.mp hids
    subst hnil
    refine ⟨?_, ?_, fun _ => rfl⟩
    · simp
    · intro q hq
      simp [hq]
  · rw [if_neg hids]
    refine ⟨rfl, ?_, fun h => absurd (by simp [h]) hids⟩
    intro q hq
    have hmem : (q.id ∈ ids) = (ids.contains q.id = true) := propext List.elem_iff.symm
    have huid : (q.userId = userId) = ((q.userId == userId) = true) :=
      propext beq_iff_eq.symm
    rw [List.mem_filter]
    simp only [hq, true_and]
    rw [Bool.not_eq_true', Bool.and_eq_false_iff, hmem, huid]
    constructor
    · rintro (h | h) ⟨h1, h2⟩
      · rw [h] at h1; cases h1
      · rw [h] at h2; cases h2
    · intro h
      cases hct : ids.contains q.id
      · exact Or.inl rfl
      · cases hub : (q.userId == userId)
        · exact Or.inr rfl
        · exact absurd ⟨hct, hub⟩ h

/-- C9 witness: two stored rows, a request for both ids by owner `U1` deletes
only the `U1` row and counts one; the foreign row survives. -/
theorem bulkDelete_scoped_total_witness :
    (bulkDeletePosts [post1, post2] "U1" ["p1", "p2"]).outcome = .ok 1
    ∧ (post2 ∈ (bulkDeletePosts [post1, post2] "U1" ["p1", "p2"]).newDb
        ↔ ¬(post2.id ∈ ["p1", "p2"] ∧ post2.userId = "U1"))
    ∧ bulkDeletePosts [post1, post2] "U1" [] = ⟨[post1, post2], .ok 0, false⟩ :=
  ⟨(bulkDelete_scoped_total [post1, post2] "U1" ["p1", "p2"]).1.trans (by decide),
   (bulkDelete_scoped_total [post1, post2] "U1" ["p1", "p2"]).2.1 post2 (by decide),
   (bulkDelete_scoped_total [post1, post2] "U1" []).2.2 rfl⟩

/-- C10: `getSummaryByUrl` treats absence as a successful `data = null`
response rather than an error, returns a stored summary with `isNew = false`,
and never modifies the stored state. -/
theorem getSummaryByUrl_absence_is_null (db : WebsiteDb) (userId url : String) :
    (getSummaryByUrl db userId url).1 = db
    ∧ ((∀ s ∈ db, ¬(s.userId = userId ∧ s.url = url)) →
        (getSummaryByUrl db userId url).2 = .ok none)
    ∧ (∀ s, db.find? (fun s => s.userId == userId && s.url == url) = some s →
        (getSummaryByUrl db userId url).2 = .ok (some ⟨formatSummary s, false⟩)) := by
  refine ⟨?_, ?_, ?_⟩
  · unfold getSummaryByUrl
    cases db.find? (fun s => s.userId == userId && s.url == url) <;> rfl
  · intro habs
    have hnone : db.find? (fun s => s.userId == userId && s.url == url) = none := by
      rw [List.find?_eq_none]
      intro s hs
      simp only [Bool.and_eq_true, beq_iff_eq, not_and]
      intro h1 h2
      exact habs s hs ⟨h1, h2⟩
    unfold getSummaryByUrl
    rw [hnone]
  · intro s hfind
    unfold getSummaryByUrl
    rw [hfind]

/-- C10 witness: a database holding only `U2`'s summary gives `U1` a
successful `null`, gives `U2` the stored row with `isNew = false`, and the
state is unchanged in both cases. -/
theorem getSummaryByUrl_absence_is_null_witness :
    (getSummaryByUrl [sum1] "U1" "https://example.com/a").1 = [sum1]
    ∧ (getSummaryByUrl [sum1] "U1" "https://example.com/a").2 = .ok none
    ∧ (getSummaryByUrl [sum1] "U2" "https://example.com/a").2
        = .ok (some ⟨formatSummary sum1, false⟩) :=
  ⟨(getSummaryByUrl_absence_is_null [sum1] "U1" "https://example.com/a").1,
   (getSummaryByUrl_absence_is_null [sum1] "U1" "https://example.com/a").2.1 (by decide),
   (getSummaryByUrl_absence_is_null [sum1] "U2" "https://example.com/a").2.2 sum1 (by decide)⟩

/-- C6: when no row with the requested id is owned by the caller — whether the
id is absent altogether or the row belongs to someone else — `getPostById`,
`updatePost` and `deletePost` all fail with the same
`AppError('LinkedIn post not found', 404)` and leave the stored state
untouched; the two causes produce identical outcomes. -/
theorem notFound_uniform_404 (db : LinkedinDb) (userId postId : String)
    (u : UpdateLinkedinPostDto) (now : Nat)
    (habsent : ∀ p ∈ db, ¬(p.id = postId ∧ p.userId = userId)) :
    getPostById db userId postId = (db, .error ⟨"LinkedIn post not found", 404⟩)
    ∧ updatePost db userId postId u now = (db, .error ⟨"LinkedIn post not found", 404⟩)
    ∧ deletePost db userId postId = (db, .error ⟨"LinkedIn post not found", 404⟩) := by
  have hfind : db.find? (fun p => p.id == postId && p.userId == userId) = none := by
    rw [List.find?_eq_none]
    intro p hp
    simp only [Bool.and_eq_true, beq_iff_eq, not_and]
    intro h1 h2
    exact habsent p hp ⟨h1, h2⟩
  refine ⟨?_, ?_, ?_⟩
  · unfold getPostById
    rw [hfind]
  · unfold updatePost
    rw [hfind]
  · unfold deletePost
    rw [hfind]

/-- C6 witness: with only `U2`'s row stored, `U1` requesting the foreign id
`p2` and the nonexistent id `nope` gets the identical 404 outcome from all
three operations, with the state unchanged. -/
theorem notFound_uniform_404_witness :
    (getPostById [post2] "U1" "p2" = ([post2], .error ⟨"LinkedIn post not found", 404⟩)
      ∧ updatePost [post2] "U1" "p2" updNone 5 = ([post2], .error ⟨"LinkedIn post not found", 404⟩)
      ∧ deletePost [post2] "U1" "p2" = ([post2], .error ⟨"LinkedIn post not found", 404⟩))
    ∧ (getPostById [post2] "U1" "nope" = ([post2], .error ⟨"LinkedIn post not found", 404⟩)
      ∧ updatePost [post2] "U1" "nope" updNone 5 = ([post2], .error ⟨"LinkedIn post not found", 404⟩)
      ∧ deletePost [post2] "U1" "nope" = ([post2], .error ⟨"LinkedIn post not found", 404⟩)) :=
  ⟨notFound_uniform_404 [post2] "U1" "p2" updNone 5 (by decide),
   notFound_uniform_404 [post2] "U1" "nope" updNone 5 (by decide)⟩

/-- C8 counterexample: the claim says a limit below 1 is clamped to 1, but a
supplied limit of `0` is falsy after `parseInt`, so `parseInt(limit) || 20`
falls back to the default and the effective limit is 20, not 1. -/
theorem limitZero_not_clamped_to_one :
    effLimit (some "0") = 20 ∧ ¬effLimit (some "0") = 1 := by decide

/-- C8 (amended): the controllers clamp an oversized limit to 100 and a
negative limit to 1, but a limit that parses to 0 — or does not parse at
all — falls back to the default 20 instead of being clamped to 1; the
effective limit always lands in [1,100], page defaults to 1 and is never
below 1, limit defaults to 20 when not supplied, and both controllers pass
exactly these effective values in the query-parameter object handed to the
list operation. -/
theorem jsNumOr_some (n d : Int) : jsNumOr (some n) d = if n = 0 then d else n := rfl

theorem jsNumOr_none (d : Int) : jsNumOr none d = d := rfl

theorem effPage_some (s : String) :
    effPage (some s) = if s = "" then 1 else max 1 (jsNumOr (parseIntJS s) 1) := rfl

theorem effLimit_some (s : String) :
    effLimit (some s)
      = if s = "" then 20 else min 100 (max 1 (jsNumOr (parseIntJS s) 20)) := rfl

theorem ctrl_page_limit_clamping :
    (∀ q, 1 ≤ effPage q)
    ∧ (∀ q, 1 ≤ effLimit q ∧ effLimit q ≤ 100)
    ∧ effPage none = 1 ∧ effLimit none = 20
    ∧ (∀ s n, parseIntJS s = some n → 100 < n → effLimit (some s) = 100)
    ∧ (∀ s n, parseIntJS s = some n → n < 0 → effLimit (some s) = 1)
    ∧ (∀ s, parseIntJS s = some 0 → effLimit (some s) = 20)
    ∧ (∀ s, parseIntJS s = none → effLimit (some s) = 20)
    ∧ (∀ q, (linkedinCtrlParams q).page = some (effPage q.page).toNat
        ∧ (linkedinCtrlParams q).limit = some (effLimit q.limit).toNat)
    ∧ (∀ p l, summaryCtrlPageLimit p l = ((effPage p).toNat, (effLimit l).toNat)) := by
  have hempty : parseIntJS "" = none := rfl
  refine ⟨?_, ?_, rfl, rfl, ?_, ?_, ?_, ?_, fun q => ⟨rfl, rfl⟩, fun p l => rfl⟩
  · intro q
    match q with
    | none => decide
    | some s =>
      rw [effPage_some]
      by_cases hse : s = ""
      · rw [if_pos hse]
      · rw [if_neg hse]
        exact le_max_left (1 : Int) _
  · intro q
    match q with
    | none => decide
    | some s =>
      rw [effLimit_some]
      by_cases hse : s = ""
      · rw [if_pos hse]
        exact ⟨by decide, by decide⟩
      · rw [if_neg hse]
        exact ⟨le_min (by decide) (le_max_left (1 : Int) _), min_le_left (100 : Int) _⟩
  · intro s n hs hn
    rw [effLimit_some,
      if_neg (fun h => by rw [h, hempty] at hs; exact Option.noConfusion hs)]
    rw [hs, jsNumOr_some, if_neg (by omega), max_eq_right (by omega : (1 : Int) ≤ n),
      min_eq_left (by omega : (100 : Int) ≤ n)]
  · intro s n hs hn
    rw [effLimit_some,
      if_neg (fun h => by rw [h, hempty] at hs; exact Option.noConfusion hs)]
    rw [hs, jsNumOr_some, if_neg (by omega), max_eq_left (by omega : n ≤ (1 : Int)),
      min_eq_right (by decide : (1 : Int) ≤ 100)]
  · intro s hs
    rw [effLimit_some]
    by_cases hse : s = ""
    · rw [if_pos hse]
    · rw [if_neg hse, hs, jsNumOr_some]
      decide
  · intro s hs
    rw [effLimit_some]
    by_cases hse : s = ""
    · rw [if_pos hse]
    · rw [if_neg hse, hs, jsNumOr_none]
      decide

/-- C8 witness: concrete clampings — `500` clamps to 100, `-3` clamps to 1,
`abc` falls back to 20, an absent page defaults to 1. -/
theorem ctrl_page_limit_clamping_witness :
    effLimit (some "500") = 100 ∧ effLimit (some "-3") = 1
    ∧ effLimit (some "abc") = 20 ∧ effPage none = 1 :=
  ⟨ctrl_page_limit_clamping.2.2.2.2.1 "500" 500 (by decide) (by decide),
   ctrl_page_limit_clamping.2.2.2.2.2.1 "-3" (-3) (by decide) (by decide),
   ctrl_page_limit_clamping.2.2.2.2.2.2.2.1 "abc" (by decide),
   ctrl_page_limit_clamping.2.2.1⟩

def dtoAlice : SaveLinkedinPostDto :=
  { content := "c1", author := "Alice", postUrl := "https://x.com/p/1" }

def dtoBob : SaveLinkedinPostDto :=
  { content := "c2", author := "Bob", postUrl := "https://x.com/p/1" }

/-- C4: the spec requires a storage-layer uniqueness violation on the create
path to be converted into a successful return-existing response.  The code
has no such fallback: at this interleaving the duplicate check reads an
empty table, a concurrent request then inserts the same `(userId, postUrl)`
row, the insert trips the `linkedin_posts_userId_postUrl_key` index, and the
`catch` block surfaces `AppError('Failed to save LinkedIn post', 500)` to the
caller instead of re-reading and returning the existing record. -/
theorem savePost_race_surfaces_500 :
    savePostRace [] [mkLinkedinPost "U1" dtoBob "p9" 1500] "U1" dtoAlice "p1" 2000
      = ([mkLinkedinPost "U1" dtoBob "p9" 1500],
         .error ⟨"Failed to save LinkedIn post", 500⟩) := by rfl

def updEmptyContent : UpdateLinkedinPostDto := { content := some (some "") }

/-- C5 counterexample: the claim says a field explicitly set to the empty
string overwrites; but `updatePost` guards `content` with truthiness
(`updates.content && …`), so `content: ""` is silently ignored and the stored
`"hello"` survives. -/
theorem updateEmptyContent_ignored :
    (updatePost [post1] "U1" "p1" updEmptyContent 5000).2.map (fun d => d.content)
      = .ok "hello"
    ∧ ¬((updatePost [post1] "U1" "p1" updEmptyContent 5000).2.map (fun d => d.content)
      = .ok "") := by
  refine ⟨rfl, ?_⟩
  intro h
  rw [show (updatePost [post1] "U1" "p1" updEmptyContent 5000).2.map (fun d => d.content)
    = .ok "hello" from rfl] at h
  exact absurd h (by decide)

/-- C5 (amended): `updatePost` is a mixed merge — `title` is field-presence
merged (an explicit `null` or `""` overwrites), while `content`, `author`,
`engagement` and `metadata` are truthiness merged: a non-empty string or a
(truthy) object overwrites, but an explicit empty string or `null` (any
falsy JSON value) is ignored and the prior value is retained; omitted fields
always retain their prior values, and rows other than the target are
untouched. -/
theorem update_mixed_truthiness_merge (db : LinkedinDb) (userId postId : String)
    (u : UpdateLinkedinPostDto) (now : Nat) (p : LinkedinPost) (d d0 : LinkedinPostData)
    (hfind : db.find? (fun q => q.id == postId && q.userId == userId) = some p)
    (hok : (updatePost db userId postId u now).2 = .ok d)
    (hfmt0 : formatPost p = some d0) :
    (∀ t, u.title = some t → d.title = t)
    ∧ (u.title = none → d.title = d0.title)
    ∧ (∀ s, u.content = some (some s) → s ≠ "" → d.content = s)
    ∧ ((u.content = none ∨ u.content = some none ∨ u.content = some (some "")) →
        d.content = d0.content)
    ∧ (∀ s, u.author = some (some s) → s ≠ "" → d.author = s)
    ∧ ((u.author = none ∨ u.author = some none ∨ u.author = some (some "")) →
        d.author = d0.author)
    ∧ (∀ e, u.engagement = some e → jsTruthy e = true → JvalOk e = true →
        d.engagement = some e)
    ∧ ((u.engagement = none ∨ ∃ e, u.engagement = some e ∧ jsTruthy e = false) →
        d.engagement = d0.engagement)
    ∧ (∀ m, u.metadata = some m → jsTruthy m = true → JvalOk m = true →
        d.metadata = some m)
    ∧ ((u.metadata = none ∨ ∃ m, u.metadata = some m ∧ jsTruthy m = false) →
        d.metadata = d0.metadata)
    ∧ (∀ q ∈ db, q.id ≠ postId → q ∈ (updatePost db userId postId u now).1) := by
  unfold updatePost at hok ⊢
  rw [hfind] at hok ⊢
  dsimp only at hok ⊢
  cases hf2 : formatPost (applyPostUpdate p u now) with
  | none => rw [hf2] at hok; exact absurd hok (by simp)
  | some d2 =>
    rw [hf2] at hok
    simp only [Except.ok.injEq] at hok
    subst hok
    obtain ⟨_, ht2, hc2, ha2, _, _, _, he2, hm2, _, _, _⟩ := formatPost_fields _ _ hf2
    obtain ⟨_, ht0, hc0, ha0, _, _, _, he0, hm0, _, _, _⟩ := formatPost_fields _ _ hfmt0
    refine ⟨?_, ?_, ?_, ?_, ?_, ?_, ?_, ?_, ?_, ?_, ?_⟩
    · intro t ht
      rw [ht2]
      show (match u.title with | some t => t | none => p.title) = t
      rw [ht]
    · intro ht
      rw [ht2, ht0]
      show (match u.title with | some t => t | none => p.title) = p.title
      rw [ht]
    · intro s hs hne
      rw [hc2]
      show (match u.content with
        | some (some s) => if s = "" then p.content else s
        | _ => p.content) = s
      rw [hs]
      show (if s = "" then p.content else s) = s
      rw [if_neg hne]
    · intro hcase
      rw [hc2, hc0]
      show (match u.content with
        | some (some s) => if s = "" then p.content else s
        | _ => p.content) = p.content
      rcases hcase with h | h | h <;> rw [h]
      rfl
    · intro s hs hne
      rw [ha2]
      show (match u.author with
        | some (some s) => if s = "" then p.author else s
        | _ => p.author) = s
      rw [hs]
      show (if s = "" then p.author else s) = s
      rw [if_neg hne]
    · intro hcase
      rw [ha2, ha0]
      show (match u.author with
        | some (some s) => if s = "" then p.author else s
        | _ => p.author) = p.author
      rcases hcase with h | h | h <;> rw [h]
      rfl
    · intro e he htr hok
      have : (applyPostUpdate p u now).engagement = some (stringifyJ e) := by
        show (match u.engagement with
          | some e => if jsTruthy e then some (stringifyJ e) else p.engagement
          | none => p.engagement) = some (stringifyJ e)
        rw [he]
        show (if jsTruthy e then some (stringifyJ e) else p.engagement) = _
        rw [if_pos htr]
      rw [this] at he2
      have hd : decodeJsonCol (some (stringifyJ e)) = some (some e) := by
        show (if stringifyJ e = "" then some none else (parseJson (stringifyJ e)).map some) = _
        rw [if_neg (stringifyJ_ne_empty e), parseJson_stringifyJ e hok]
        rfl
      rw [hd] at he2
      exact (Option.some.injEq _ _ ▸ he2).symm
    · intro hcase
      have : (applyPostUpdate p u now).engagement = p.engagement := by
        show (match u.engagement with
          | some e => if jsTruthy e then some (stringifyJ e) else p.engagement
          | none => p.engagement) = p.engagement
        rcases hcase with h | ⟨e, h, hf⟩
        · rw [h]
        · rw [h]
          show (if jsTruthy e then some (stringifyJ e) else p.engagement) = _
          rw [if_neg (by rw [hf]; exact Bool.false_ne_true)]
      rw [this] at he2
      rw [he2] at he0
      exact (Option.some.injEq _ _ ▸ he0)
    · intro m hm htr hok
      have : (applyPostUpdate p u now).metadata = some (stringifyJ m) := by
        show (match u.metadata with
          | some m => if jsTruthy m then some (stringifyJ m) else p.metadata
          | none => p.metadata) = some (stringifyJ m)
        rw [hm]
        show (if jsTruthy m then some (stringifyJ m) else p.metadata) = _
        rw [if_pos htr]
      rw [this] at hm2
      have hd : decodeJsonCol (some (stringifyJ m)) = some (some m) := by
        show (if stringifyJ m = "" then some none else (parseJson (stringifyJ m)).map some) = _
        rw [if_neg (stringifyJ_ne_empty m), parseJson_stringifyJ m hok]
        rfl
      rw [hd] at hm2
      exact (Option.some.injEq _ _ ▸ hm2).symm
    · intro hcase
      have : (applyPostUpdate p u now).metadata = p.metadata := by
        show (match u.metadata with
          | some m => if jsTruthy m then some (stringifyJ m) else p.metadata
          | none => p.metadata) = p.metadata
        rcases hcase with h | ⟨m, h, hf⟩
        · rw [h]
        · rw [h]
          show (if jsTruthy m then some (stringifyJ m) else p.metadata) = _
          rw [if_neg (by rw [hf]; exact Bool.false_ne_true)]
      rw [this] at hm2
      rw [hm2] at hm0
      exact (Option.some.injEq _ _ ▸ hm0)
    · intro q hq hqid
      have hfq : (fun r => if (r.id == postId) = true then applyPostUpdate p u now else r) q
          = q := by
        show (if (q.id == postId) = true then applyPostUpdate p u now else q) = q
        rw [if_neg (by simp [hqid])]
      have hmem := List.mem_map_of_mem
        (fun r => if (r.id == postId) = true then applyPostUpdate p u now else r) hq
      rw [hfq] at hmem
      exact hmem

def updW : UpdateLinkedinPostDto := { title := some none, content := some (some "new") }

def updWData : LinkedinPostData :=
  { id := "p1", title := none, content := "new", author := "Alice",
    postUrl := "https://x.com/p/1", linkedinPostId := none, platform := "linkedin",
    engagement := none, metadata := none, savedAt := toISOString 1000,
    createdAt := toISOString 1000, updatedAt := toISOString 5 }

def post1Data : LinkedinPostData :=
  { id := "p1", title := some "T1", content := "hello", author := "Alice",
    postUrl := "https://x.com/p/1", linkedinPostId := none, platform := "linkedin",
    engagement := none, metadata := none, savedAt := toISOString 1000,
    createdAt := toISOString 1000, updatedAt := toISOString 1000 }

/-- C5 witness: updating `post1` with `title: null` and `content: "new"`
overwrites the title to `null` (presence merge) and the content to `"new"`
(truthy), while the omitted author keeps its prior value. -/
theorem update_mixed_truthiness_merge_witness :
    updWData.title = none ∧ updWData.content = "new" ∧ updWData.author = post1Data.author :=
  ⟨(update_mixed_truthiness_merge [post1] "U1" "p1" updW 5 post1 updWData post1Data
      (by decide) (by decide) (by decide)).1 none rfl,
   (update_mixed_truthiness_merge [post1] "U1" "p1" updW 5 post1 updWData post1Data
      (by decide) (by decide) (by decide)).2.2.1 "new" rfl (by decide),
   (update_mixed_truthiness_merge [post1] "U1" "p1" updW 5 post1 updWData post1Data
      (by decide) (by decide) (by decide)).2.2.2.2.2.1 (Or.inl rfl)⟩

/-- C1 counterexample: the claim requires the first `savePost` response to
report `isNew = true` and the second `isNew = false` — two distinguishable
responses.  The LinkedIn save response carries no `isNew` member at all: the
second call (author "Bob", same owner and postUrl) returns a response
byte-identical to the first, still holding Alice's record. -/
theorem savePost_reports_no_isNew :
    (savePost (savePost [] "U1" dtoAlice "p1" 1000).1 "U1" dtoBob "p2" 2000).2
      = (savePost [] "U1" dtoAlice "p1" 1000).2
    ∧ (savePost [] "U1" dtoAlice "p1" 1000).2 = .ok (mkPostData dtoAlice "p1" 1000) := by
  exact ⟨rfl, by decide⟩

/-- The row built by the `prisma.websiteSummary.create` call in
`createOrGetSummary`. -/
def mkWebsiteSummary (userId : String) (dto : CreateWebsiteSummaryDto) (txt : String)
    (newId : String) (now : Nat) : WebsiteSummary :=
  { id := newId
    title := dto.title
    content := dto.content
    summary := txt
    url := dto.url
    websiteName := extractWebsiteName dto.url
    faviconUrl := some (getFaviconUrl dto.url)
    userId := userId
    createdAt := now
    updatedAt := now }

/-- C1 (amended): create is idempotent per uniqueness key for both services —
the first call persists a new record, the second call with the same key (and
arbitrary differing payload) performs no write and returns the record stored
by the first call, unchanged.  `createOrGetSummary` reports `isNew = true`
then `isNew = false`; `savePost`'s response carries no `isNew` flag and is
identical for both calls. -/
theorem create_idempotent_per_key (db : LinkedinDb) (wdb : WebsiteDb) (userId : String)
    (dto dto2 : SaveLinkedinPostDto) (wdto wdto2 : CreateWebsiteSummaryDto)
    (gen gen2 : String → Option String) (txt : String)
    (id1 id2 wid1 wid2 : String) (t1 t2 t3 t4 : Nat)
    (hfresh : ∀ p ∈ db, ¬(p.userId = userId ∧ p.postUrl = dto.postUrl))
    (hurl : dto2.postUrl = dto.postUrl)
    (hwfresh : ∀ s ∈ wdb, ¬(s.userId = userId ∧ s.url = wdto.url))
    (hwurl : wdto2.url = wdto.url)
    (hgen : generateSummaryWith gen wdto.content = .ok txt) (htxt : txt ≠ "")
    (heok : ∀ j, dto.engagement = some j → jsTruthy j = true → JvalOk j = true)
    (hmok : ∀ j, dto.metadata = some j → jsTruthy j = true → JvalOk j = true) :
    savePost db userId dto id1 t1
      = (mkLinkedinPost userId dto id1 t1 :: db, .ok (mkPostData dto id1 t1))
    ∧ savePost (mkLinkedinPost userId dto id1 t1 :: db) userId dto2 id2 t2
      = (mkLinkedinPost userId dto id1 t1 :: db, .ok (mkPostData dto id1 t1))
    ∧ createOrGetSummary wdb userId wdto gen wid1 t3
      = (mkWebsiteSummary userId wdto txt wid1 t3 :: wdb,
         .ok ⟨formatSummary (mkWebsiteSummary userId wdto txt wid1 t3), true⟩)
    ∧ createOrGetSummary (mkWebsiteSummary userId wdto txt wid1 t3 :: wdb) userId wdto2
        gen2 wid2 t4
      = (mkWebsiteSummary userId wdto txt wid1 t3 :: wdb,
         .ok ⟨formatSummary (mkWebsiteSummary userId wdto txt wid1 t3), false⟩) := by
  have hfindL : db.find? (fun p => p.userId == userId && p.postUrl == dto.postUrl) = none := by
    rw [List.find?_eq_none]
    intro p hp
    simp only [Bool.and_eq_true, beq_iff_eq, not_and]
    intro h1 h2
    exact hfresh p hp ⟨h1, h2⟩
  have hanyL : db.any (fun p => p.userId == userId && p.postUrl == dto.postUrl) = false := by
    rw [List.any_eq_false]
    intro p hp
    simp only [Bool.and_eq_true, beq_iff_eq, not_and]
    intro h1 h2
    exact hfresh p hp ⟨h1, h2⟩
  have hfindW : wdb.find? (fun s => s.userId == userId && s.url == wdto.url) = none := by
    rw [List.find?_eq_none]
    intro s hs
    simp only [Bool.and_eq_true, beq_iff_eq, not_and]
    intro h1 h2
    exact hwfresh s hs ⟨h1, h2⟩
  refine ⟨?_, ?_, ?_, ?_⟩
  · unfold savePost savePostRace
    rw [hfindL, if_neg (by rw [hanyL]; exact Bool.false_ne_true)]
    dsimp only
    rw [formatPost_mkLinkedinPost userId dto id1 t1 heok hmok]
  · unfold savePost savePostRace
    rw [List.find?_cons_of_pos _ (by
      show ((mkLinkedinPost userId dto id1 t1).userId == userId
        && (mkLinkedinPost userId dto id1 t1).postUrl == dto2.postUrl) = true
      simp [mkLinkedinPost, hurl])]
    dsimp only
    rw [formatPost_mkLinkedinPost userId dto id1 t1 heok hmok]
  · unfold createOrGetSummary
    rw [hfindW]
    dsimp only
    rw [hgen]
    dsimp only
    rw [if_neg htxt]
    rfl
  · unfold createOrGetSummary
    rw [List.find?_cons_of_pos _ (by
      show ((mkWebsiteSummary userId wdto txt wid1 t3).userId == userId
        && (mkWebsiteSummary userId wdto txt wid1 t3).url == wdto2.url) = true
      simp [mkWebsiteSummary, hwurl])]

def wdtoW : CreateWebsiteSummaryDto :=
  { title := "T", content := "body", url := "https://example.com/a" }

def wdtoW2 : CreateWebsiteSummaryDto :=
  { title := "Other", content := "other body", url := "https://example.com/a" }

def genW : String → Option String := fun _ => some "a summary"

/-- C1 witness: the full two-call runs of both services at concrete inputs —
create then re-create with a differing payload on the same key. -/
theorem create_idempotent_per_key_witness :
    savePost [] "U1" dtoAlice "p1" 1000
      = (mkLinkedinPost "U1" dtoAlice "p1" 1000 :: [], .ok (mkPostData dtoAlice "p1" 1000))
    ∧ savePost (mkLinkedinPost "U1" dtoAlice "p1" 1000 :: []) "U1" dtoBob "p2" 2000
      = (mkLinkedinPost "U1" dtoAlice "p1" 1000 :: [], .ok (mkPostData dtoAlice "p1" 1000))
    ∧ createOrGetSummary [] "U1" wdtoW genW "w1" 3000
      = (mkWebsiteSummary "U1" wdtoW "a summary" "w1" 3000 :: [],
         .ok ⟨formatSummary (mkWebsiteSummary "U1" wdtoW "a summary" "w1" 3000), true⟩)
    ∧ createOrGetSummary (mkWebsiteSummary "U1" wdtoW "a summary" "w1" 3000 :: []) "U1"
        wdtoW2 genW "w2" 4000
      = (mkWebsiteSummary "U1" wdtoW "a summary" "w1" 3000 :: [],
         .ok ⟨formatSummary (mkWebsiteSummary "U1" wdtoW "a summary" "w1" 3000), false⟩) :=
  create_idempotent_per_key [] [] "U1" dtoAlice dtoBob wdtoW wdtoW2 genW genW "a summary"
    "p1" "p2" "w1" "w2" 1000 2000 3000 4000
    (by simp) (by decide) (by simp) (by decide) (by decide) (by decide)
    (by intro j h; simp [dtoAlice] at h) (by intro j h; simp [dtoAlice] at h)

/-- C3 counterexample: with an empty result set (`total = 0`) and the valid
page 2, the code still computes `hasPrev = page > 1 = true`, while the claim
demands that both `hasNext` and `hasPrev` be false whenever `total = 0`. -/
theorem pagination_empty_page2_hasPrev :
    ((getPosts ([] : LinkedinDb) "U1" { page := some 2, limit := some 20 }).2.map
      (fun r => (r.pagination.total, r.pagination.hasPrev, r.pagination.hasNext)))
      = .ok (0, true, false) := rfl

/-- C3 (amended): for every valid `page ≥ 1` and `limit ∈ [1,100]`, a
successful list result satisfies `items.length = min(limit, total -
(page-1)*limit)` (truncated subtraction), `total` counts all matching rows
ignoring the window, `totalPages = ⌈total/limit⌉` (computed as
`(total+limit-1)/limit`), `hasNext ↔ page < totalPages`, and `hasPrev ↔
page > 1` — also when `total = 0`, where items is empty, `totalPages` is 0
and `hasNext` is false, but `hasPrev` is still `page > 1` (false only on
page 1). -/
theorem pagination_window_characterization (db : LinkedinDb) (userId : String)
    (params : LinkedinPostQueryParams) (page limit : Nat) (r : PaginatedPosts)
    (hp : params.page = some page) (hl : params.limit = some limit)
    (hp1 : 1 ≤ page) (hl1 : 1 ≤ limit) (hl100 : limit ≤ 100)
    (hok : (getPosts db userId params).2 = .ok r) :
    r.data.length
      = min limit ((db.filter (postMatches userId params)).length - (page - 1) * limit)
    ∧ r.pagination.total = (db.filter (postMatches userId params)).length
    ∧ r.pagination.totalPages = ceilDiv (db.filter (postMatches userId params)).length limit
    ∧ (r.pagination.hasNext = true
        ↔ page < ceilDiv (db.filter (postMatches userId params)).length limit)
    ∧ (r.pagination.hasPrev = true ↔ 1 < page)
    ∧ ((db.filter (postMatches userId params)).length = 0 →
        r.data = [] ∧ r.pagination.totalPages = 0 ∧ r.pagination.hasNext = false
        ∧ r.pagination.hasPrev = decide (1 < page)) := by
  unfold getPosts at hok
  rw [hp, hl] at hok
  simp only [Option.getD_some] at hok
  cases hfp : formatPosts (((sortLE (postLE (params.sortBy.getD .savedAt)
      (params.sortOrder.getD .desc)) (db.filter (postMatches userId params))).drop
        ((page - 1) * limit)).take limit) with
  | none => rw [hfp] at hok; exact absurd hok (by simp)
  | some ds =>
    rw [hfp] at hok
    simp only [Except.ok.injEq] at hok
    subst hok
    have hlen : ds.length
        = min limit ((db.filter (postMatches userId params)).length - (page - 1) * limit) := by
      rw [formatPosts_length _ _ hfp, List.length_take, List.length_drop, sortLE_length]
    refine ⟨hlen, rfl, rfl, decide_eq_true_iff, decide_eq_true_iff, ?_⟩
    intro h0
    refine ⟨?_, ?_, ?_, rfl⟩
    · rw [← List.length_eq_zero]
      rw [hlen, h0]
      simp
    · show ceilDiv (db.filter (postMatches userId params)).length limit = 0
      rw [h0]
      unfold ceilDiv
      exact Nat.div_eq_of_lt (by omega)
    · show decide (page < ceilDiv (db.filter (postMatches userId params)).length limit) = false
      rw [h0]
      unfold ceilDiv
      rw [Nat.div_eq_of_lt (by omega)]
      exact decide_eq_false (by omega)

def qpC3 : LinkedinPostQueryParams := { page := some 2, limit := some 2 }

def dbC3 : LinkedinDb := [post1, post2, post3, post4]

def rC3 : PaginatedPosts :=
  { data := [post1Data]
    pagination :=
      { page := 2, limit := 2, total := 3, totalPages := 2, hasNext := false, hasPrev := true } }

/-- C3 witness: three matching rows with `limit = 2`, `page = 2` — the second
page holds the one remaining row, `totalPages = 2`, `hasNext` false,
`hasPrev` true. -/
theorem pagination_window_characterization_witness :
    rC3.data.length = min 2 ((dbC3.filter (postMatches "U1" qpC3)).length - (2 - 1) * 2)
    ∧ rC3.pagination.hasPrev = true
    ∧ rC3.pagination.totalPages = ceilDiv (dbC3.filter (postMatches "U1" qpC3)).length 2 :=
  have h := pagination_window_characterization dbC3 "U1" qpC3 2 2 rC3 rfl rfl
    (by decide) (by decide) (by decide) rfl
  ⟨h.1, h.2.2.2.2.1.mpr (by decide), h.2.2.1⟩

/-- C7: JSON sub-fields round-trip losslessly — `JSON.parse` of the stored
`JSON.stringify` text recovers every well-formed JSON value exactly:
objects with arbitrary keys (the metadata type's `[key: string]: any` index
signature), nested arrays and objects, strings, booleans, `null`, and
numbers in their signed shortest-decimal form (negative and fractional
included) — numbers stay numbers and booleans stay booleans; through the
formatter a stored encoded column decodes to the original object, a
`null`/absent column decodes to `null`, and every timestamp field is
emitted as an ISO-8601 `YYYY-MM-DDTHH:MM:SS.mmmZ` string (for any instant
up to the end of year 9999). -/
theorem json_payload_round_trip :
    (∀ v : Jval, JvalOk v = true → parseJson (stringifyJ v) = some v)
    ∧ (∀ p d, formatPost p = some d →
        (∀ v, JvalOk v = true → p.engagement = some (stringifyJ v) → d.engagement = some v)
        ∧ (p.engagement = none → d.engagement = none)
        ∧ (∀ v, JvalOk v = true → p.metadata = some (stringifyJ v) → d.metadata = some v)
        ∧ (p.metadata = none → d.metadata = none)
        ∧ (p.savedAt < 253402300800000 → isISO8601 d.savedAt = true)
        ∧ (p.createdAt < 253402300800000 → isISO8601 d.createdAt = true)
        ∧ (p.updatedAt < 253402300800000 → isISO8601 d.updatedAt = true)) := by
  refine ⟨parseJson_stringifyJ, ?_⟩
  intro p d hfmt
  obtain ⟨_, _, _, _, _, _, _, he, hm, hs, hcr, hup⟩ := formatPost_fields p d hfmt
  refine ⟨?_, ?_, ?_, ?_, ?_, ?_, ?_⟩
  · intro v hok hpe
    rw [hpe] at he
    have hd : decodeJsonCol (some (stringifyJ v)) = some (some v) := by
      show (if stringifyJ v = "" then some none else (parseJson (stringifyJ v)).map some) = _
      rw [if_neg (stringifyJ_ne_empty v), parseJson_stringifyJ v hok]
      rfl
    rw [hd] at he
    exact ((Option.some.injEq _ _ ▸ he)).symm
  · intro hpe
    rw [hpe] at he
    have h2 : some (none : Option Jval) = some d.engagement := he
    exact (Option.some.injEq _ _ ▸ h2).symm
  · intro v hok hpm
    rw [hpm] at hm
    have hd : decodeJsonCol (some (stringifyJ v)) = some (some v) := by
      show (if stringifyJ v = "" then some none else (parseJson (stringifyJ v)).map some) = _
      rw [if_neg (stringifyJ_ne_empty v), parseJson_stringifyJ v hok]
      rfl
    rw [hd] at hm
    exact ((Option.some.injEq _ _ ▸ hm)).symm
  · intro hpm
    rw [hpm] at hm
    have h2 : some (none : Option Jval) = some d.metadata := hm
    exact (Option.some.injEq _ _ ▸ h2).symm
  · intro hb
    rw [hs]
    exact toISOString_isISO8601 _ hb
  · intro hb
    rw [hcr]
    exact toISOString_isISO8601 _ hb
  · intro hb
    rw [hup]
    exact toISOString_isISO8601 _ hb

/-- A metadata payload exercising the index signature: the typed `timestamp`
string plus extra keys holding a boolean, a negative fractional number, a
large integer, and a nested array containing a `null`. -/
def jW : Jval :=
  .jobjCons "timestamp" (.jstr "2024-01-01T00:00:00Z")
    (.jobjCons "pinned" (.jbool true)
      (.jobjCons "score" (.jnum true 35 (-1))
        (.jobjCons "views" (.jnum false 12 2)
          (.jobjCons "tags" (.jarrCons (.jstr "ai") (.jarrCons .jnull .jarrNil))
            .jobjNil))))

/-- An engagement payload in the DTO's typed shape. -/
def engJ : Jval :=
  .jobjCons "likes" (.jnum false 5 0)
    (.jobjCons "comments" (.jnum false 0 0)
      (.jobjCons "shares" (.jnum false 12 0) .jobjNil))

def postJ : LinkedinPost :=
  { id := "pj", title := none, content := "c", author := "A",
    postUrl := "https://x.com/p/9", linkedinPostId := none, platform := "linkedin",
    engagement := some (stringifyJ engJ), metadata := some (stringifyJ jW),
    savedAt := 1700000000000, userId := "U1", createdAt := 1700000000000,
    updatedAt := 1700000000000 }

def postJData : LinkedinPostData :=
  { id := "pj", title := none, content := "c", author := "A",
    postUrl := "https://x.com/p/9", linkedinPostId := none, platform := "linkedin",
    engagement := some engJ, metadata := some jW,
    savedAt := toISOString 1700000000000, createdAt := toISOString 1700000000000,
    updatedAt := toISOString 1700000000000 }

/-- C7 witness: a typed engagement object (`{likes: 5, comments: 0,
shares: 12}`) and a metadata object carrying extra boolean, negative
fractional (`-3.5`), large integer (`1200`) and nested-array keys
round-trip through the stored text columns, and the formatted timestamps
pass the ISO-8601 shape check. -/
theorem json_payload_round_trip_witness :
    JvalOk jW = true
    ∧ parseJson (stringifyJ jW) = some jW
    ∧ postJData.metadata = some jW
    ∧ postJData.engagement = some engJ
    ∧ isISO8601 postJData.savedAt = true :=
  ⟨by decide,
   json_payload_round_trip.1 jW (by decide),
   (json_payload_round_trip.2 postJ postJData (by decide)).2.2.1 jW (by decide) rfl,
   (json_payload_round_trip.2 postJ postJData (by decide)).1 engJ (by decide) rfl,
   (json_payload_round_trip.2 postJ postJData (by decide)).2.2.2.2.1 (by decide)⟩

theorem dedupStrings_subset : ∀ (l : List String) (x : String), x ∈ dedupStrings l → x ∈ l := by
  intro l
  induction l with
  | nil => intro x hx; exact absurd hx (by simp [dedupStrings])
  | cons s rest ih =>
    intro x hx
    unfold dedupStrings at hx
    rcases List.mem_cons.mp hx with h | h
    · simp [h]
    · exact List.mem_cons_of_mem s (ih x (List.mem_of_mem_filter h))

/-- C2: every operation is ownership-scoped — a list result only ever holds
records of the requesting owner (never another owner's record, whatever the
caller-supplied filters), a by-id read only succeeds on an owned record,
update and delete leave every other owner's record untouched, bulk delete
only removes rows that are both requested by id and owned by the requester,
and the statistics aggregate only the requester's rows.  (`hnodup` is the
primary-key invariant on `id`.) -/
theorem ownership_isolation (A : String) (db : LinkedinDb)
    (hnodup : (db.map (fun p => p.id)).Nodup) :
    (∀ params r, (getPosts db A params).2 = .ok r →
      ∀ d ∈ r.data, ∃ p ∈ db, p.userId = A ∧ formatPost p = some d)
    ∧ (∀ pid d, (getPostById db A pid).2 = .ok d →
      ∃ p ∈ db, p.userId = A ∧ p.id = pid ∧ formatPost p = some d)
    ∧ (∀ pid u now, ∀ q ∈ db, q.userId ≠ A → q ∈ (updatePost db A pid u now).1)
    ∧ (∀ pid, ∀ q ∈ db, q.userId ≠ A → q ∈ (deletePost db A pid).1)
    ∧ (∀ ids, ∀ q ∈ db, q ∉ (bulkDeletePosts db A ids).newDb → q.id ∈ ids ∧ q.userId = A)
    ∧ (∀ now st, (getPostStats db A now).2 = .ok st →
        st.totalPosts = (db.filter (fun p => p.userId == A)).length
        ∧ st.postsThisMonth = (db.filter (fun p => p.userId == A
            && decide (startOfMonthMs now ≤ p.savedAt))).length
        ∧ st.postsThisWeek = (db.filter (fun p => p.userId == A
            && decide (now - 7 * 24 * 60 * 60 * 1000 ≤ p.savedAt))).length
        ∧ (∀ a ∈ st.topAuthors, ∃ p ∈ db, p.userId = A ∧ p.author = a.author)
        ∧ (∀ item ∈ st.recentActivity, ∃ p ∈ db, p.userId = A ∧ p.id = item.id)) := by
  refine ⟨?_, ?_, ?_, ?_, ?_, ?_⟩
  · -- getPosts
    intro params r hok d hd
    unfold getPosts at hok
    dsimp only at hok
    cases hfp : formatPosts (((sortLE (postLE (params.sortBy.getD .savedAt)
        (params.sortOrder.getD .desc)) (db.filter (postMatches A params))).drop
          ((params.page.getD 1 - 1) * params.limit.getD 20)).take (params.limit.getD 20)) with
    | none => rw [hfp] at hok; exact absurd hok (by simp)
    | some ds =>
      rw [hfp] at hok
      simp only [Except.ok.injEq] at hok
      subst hok
      obtain ⟨p, hpmem, hpfmt⟩ := formatPosts_mem _ _ hfp d hd
      have hp2 : p ∈ db.filter (postMatches A params) :=
        (sortLE_mem _ _ _).mp (List.drop_subset _ _ (List.take_subset _ _ hpmem))
      obtain ⟨hpdb, hpm⟩ := List.mem_filter.mp hp2
      exact ⟨p, hpdb, postMatches_userId A params p hpm, hpfmt⟩
  · -- getPostById
    intro pid d hok
    unfold getPostById at hok
    cases hfind : db.find? (fun p => p.id == pid && p.userId == A) with
    | none => rw [hfind] at hok; exact absurd hok (by simp)
    | some p =>
      rw [hfind] at hok
      dsimp only at hok
      cases hfp : formatPost p with
      | none => rw [hfp] at hok; exact absurd hok (by simp)
      | some d2 =>
        rw [hfp] at hok
        simp only [Except.ok.injEq] at hok
        subst hok
        have hpred := List.find?_some hfind
        simp only [Bool.and_eq_true, beq_iff_eq] at hpred
        exact ⟨p, List.mem_of_find?_eq_some hfind, hpred.2, hpred.1, hfp⟩
  · -- updatePost
    intro pid u now q hq hqa
    unfold updatePost
    cases hfind : db.find? (fun p => p.id == pid && p.userId == A) with
    | none => exact hq
    | some p =>
      have hpred := List.find?_some hfind
      simp only [Bool.and_eq_true, beq_iff_eq] at hpred
      have hpdb := List.mem_of_find?_eq_some hfind
      have hqid : q.id ≠ pid := by
        intro hqp
        have : q = p := List.inj_on_of_nodup_map hnodup hq hpdb (by rw [hqp, hpred.1])
        rw [this] at hqa
        exact hqa hpred.2
      dsimp only
      have hfq : (fun r => if (r.id == pid) = true then applyPostUpdate p u now else r) q
          = q := by
        show (if (q.id == pid) = true then applyPostUpdate p u now else q) = q
        rw [if_neg (by simp [hqid])]
      have hmem := List.mem_map_of_mem
        (fun r => if (r.id == pid) = true then applyPostUpdate p u now else r) hq
      rw [hfq] at hmem
      exact hmem
  · -- deletePost
    intro pid q hq hqa
    unfold deletePost
    cases hfind : db.find? (fun p => p.id == pid && p.userId == A) with
    | none => exact hq
    | some p =>
      have hpred := List.find?_some hfind
      simp only [Bool.and_eq_true, beq_iff_eq] at hpred
      have hpdb := List.mem_of_find?_eq_some hfind
      have hqid : q.id ≠ pid := by
        intro hqp
        have : q = p := List.inj_on_of_nodup_map hnodup hq hpdb (by rw [hqp, hpred.1])
        rw [this] at hqa
        exact hqa hpred.2
      dsimp only
      exact List.mem_filter.mpr ⟨hq, by simp [hqid]⟩
  · -- bulkDeletePosts
    intro ids q hq hqnot
    unfold bulkDeletePosts at hqnot
    by_cases hids : ids.isEmpty
    · rw [if_pos hids] at hqnot
      exact absurd hq hqnot
    · rw [if_neg hids] at hqnot
      dsimp only at hqnot
      have hpred : ¬((!(ids.contains q.id && q.userId == A)) = true) := by
        intro hkeep
        exact hqnot (List.mem_filter.mpr ⟨hq, hkeep⟩)
      rw [Bool.not_eq_true', Bool.not_eq_false, Bool.and_eq_true] at hpred
      exact ⟨List.elem_iff.mp hpred.1, beq_iff_eq.mp hpred.2⟩
  · -- getPostStats
    intro now st hok
    unfold getPostStats at hok
    simp only [Except.ok.injEq] at hok
    subst hok
    refine ⟨rfl, rfl, rfl, ?_, ?_⟩
    · intro a ha
      have ha2 : a ∈ (dedupStrings ((db.filter (fun p => p.userId == A)).map
          (fun p => p.author))).map
          (fun x => AuthorCount.mk x (((db.filter (fun p => p.userId == A)).filter
            (fun p => p.author == x)).length)) :=
        (sortLE_mem _ _ _).mp (List.take_subset _ _ ha)
      obtain ⟨x, hx, hxa⟩ := List.mem_map.mp ha2
      have hx2 : x ∈ (db.filter (fun p => p.userId == A)).map (fun p => p.author) :=
        dedupStrings_subset _ x hx
      obtain ⟨p, hpmem, hpauthor⟩ := List.mem_map.mp hx2
      obtain ⟨hpdb, hpA⟩ := List.mem_filter.mp hpmem
      refine ⟨p, hpdb, beq_iff_eq.mp hpA, ?_⟩
      rw [← hxa, hpauthor]
    · intro item hitem
      obtain ⟨p, hpmem, hpitem⟩ := List.mem_map.mp hitem
      have hp2 : p ∈ db.filter (fun p => p.userId == A) :=
        (sortLE_mem _ _ _).mp (List.take_subset _ _ hpmem)
      obtain ⟨hpdb, hpA⟩ := List.mem_filter.mp hp2
      refine ⟨p, hpdb, beq_iff_eq.mp hpA, ?_⟩
      rw [← hpitem]

/-- C2 witness: with the mixed two-owner fixture database, a by-id read by
`U1` pins an owned row, and a bulk delete that removed `post1` shows it was
both requested and owned; `U2`'s record survives a `U1` delete. -/
theorem ownership_isolation_witness :
    (∃ p ∈ dbC3, p.userId = "U1" ∧ p.id = "p1" ∧ formatPost p = some post1Data)
    ∧ (post1.id ∈ ["p1"] ∧ post1.userId = "U1")
    ∧ post2 ∈ (deletePost dbC3 "U1" "p1").1 :=
  ⟨(ownership_isolation "U1" dbC3 (by decide)).2.1 "p1" post1Data rfl,
   (ownership_isolation "U1" dbC3 (by decide)).2.2.2.2.1 ["p1"] post1 (by decide) (by decide),
   (ownership_isolation "U1" dbC3 (by decide)).2.2.2.1 "p1" post2 (by decide) (by decide)⟩
